import Mathlib

/-!
Verification model of the bifrost folder-structure template engine
(`src/domains/folder_structure`).

The Python source is shallowly embedded: each Python function named in a
claim is translated into an executable Lean definition; dicts become
insertion-ordered association lists, exceptions become `Except`, and the
two regular expressions the code relies on (the placeholder pattern
shared by `FolderTemplate._parse_template` and
`FolderStructureService._template_to_regex`, and the greedy named groups
it synthesizes, each matching one or more non-separator characters) are
modelled by explicit scanners and a backtracking matcher with Python's
greedy search order.
-/

namespace FolderStruct

/-! ## Character classes of the placeholder pattern

The placeholder regex used by `_parse_template` is brace, name, brace,
where the name is one character of class A-Z or underscore followed by
any number of characters of class A-Z, 0-9 or underscore. -/

def isUpperAZ (c : Char) : Bool := 'A' ≤ c && c ≤ 'Z'

def isDigit09 (c : Char) : Bool := '0' ≤ c && c ≤ '9'

/-- Leading character class of the placeholder / variable-name patterns. -/
def isNameStart (c : Char) : Bool := isUpperAZ c || c == '_'

/-- Continuation character class of the placeholder / variable-name patterns. -/
def isNameChar (c : Char) : Bool := isUpperAZ c || isDigit09 c || c == '_'

/-! ## Path tokens (`value_objects.PathToken`)

`TokenType` also declares `EXPRESSION` and `CONDITION`, but
`FolderTemplate._parse_template` only ever constructs `LITERAL` and
`VARIABLE` tokens, so only those two kinds are modelled.  The
`position` field is not modelled: no operation of the engine reads it. -/

inductive PathToken where
  | lit (content : String)
  | var (name : String)
deriving DecidableEq, Repr

/-- The surface text a token stands for in the raw template string. -/
def tokChars : PathToken → List Char
  | .lit s => s.data
  | .var n => '{' :: n.data ++ ['}']

def tokensChars (toks : List PathToken) : List Char :=
  (toks.map tokChars).flatten

/-! ## The placeholder scanner (`FolderTemplate._parse_template`)

The Python code repeatedly searches `remaining` for the leftmost match of
the placeholder pattern.  Because the name classes contain neither brace,
backtracking never helps: a match starting at a given open brace succeeds
iff the maximal run of name characters after a leading start character is
immediately followed by a closing brace, and the leftmost match lies at
the first open brace where this succeeds.  `readPlaceholder` decides
exactly that at the head of the character list. -/

def readPlaceholder : List Char → Option (String × List Char)
  | c0 :: c1 :: rest =>
    if c0 == '{' && isNameStart c1 then
      match rest.dropWhile isNameChar with
      | c2 :: tail =>
        if c2 == '}' then some (String.mk (c1 :: rest.takeWhile isNameChar), tail)
        else none
      | [] => none
    else none
  | _ => none

/-- Inversion: a successful placeholder read decomposes the input as an
open brace, a valid name, a closing brace, and the remainder. -/
theorem readPlaceholder_some {l : List Char} {n : String} {rest : List Char}
    (h : readPlaceholder l = some (n, rest)) :
    ∃ c body, isNameStart c = true ∧ body.all isNameChar = true ∧
      n = String.mk (c :: body) ∧ l = '{' :: c :: (body ++ '}' :: rest) := by
  match l with
  | [] => simp [readPlaceholder] at h
  | [c0] => simp [readPlaceholder] at h
  | c0 :: c1 :: r =>
    simp only [readPlaceholder] at h
    by_cases hif : (c0 == '{' && isNameStart c1) = true
    · rw [if_pos hif] at h
      match hdrop : r.dropWhile isNameChar with
      | [] => rw [hdrop] at h; exact absurd h (by simp)
      | c2 :: tail =>
        rw [hdrop] at h
        dsimp only at h
        by_cases hc2 : (c2 == '}') = true
        · rw [if_pos hc2] at h
          simp only [Option.some.injEq, Prod.mk.injEq] at h
          obtain ⟨hn, hrest⟩ := h
          refine ⟨c1, r.takeWhile isNameChar, ?_, ?_, hn.symm, ?_⟩
          · exact (Bool.and_eq_true _ _ |>.mp hif).2
          · rw [List.all_eq_true]
            intro x hx
            exact List.mem_takeWhile_imp hx
          · have hc0 : c0 = '{' := by
              have := (Bool.and_eq_true _ _ |>.mp hif).1
              exact beq_iff_eq.mp this
            have hc2' : c2 = '}' := beq_iff_eq.mp hc2
            have hr : r = r.takeWhile isNameChar ++ ('}' :: rest) := by
              conv_lhs => rw [← List.takeWhile_append_dropWhile isNameChar r]
              rw [hdrop, hc2', hrest]
            rw [hc0, ← hr]
        · rw [if_neg hc2] at h; exact absurd h (by simp)
    · rw [if_neg hif] at h; exact absurd h (by simp)

theorem readPlaceholder_shrinks {l : List Char} {n : String} {rest : List Char}
    (h : readPlaceholder l = some (n, rest)) : rest.length < l.length := by
  obtain ⟨c, body, _, _, _, hl⟩ := readPlaceholder_some h
  subst hl
  simp [List.length_append]
  omega

/-- The scanning loop of `_parse_template`: `acc` holds (reversed) literal
characters accumulated since the last flushed token, exactly as the Python
loop turns the text between the scan position and the next regex match
into one literal token. -/
def scanTemplate (acc : List Char) (cs : List Char) : List PathToken :=
  match cs with
  | [] => if acc.isEmpty then [] else [.lit (String.mk acc.reverse)]
  | c :: cs' =>
    match h : readPlaceholder (c :: cs') with
    | some (name, rest) =>
      if acc.isEmpty then .var name :: scanTemplate [] rest
      else .lit (String.mk acc.reverse) :: .var name :: scanTemplate [] rest
    | none => scanTemplate (c :: acc) cs'
termination_by cs.length
decreasing_by
  · exact readPlaceholder_shrinks h
  · exact readPlaceholder_shrinks h
  · simp

theorem tokensChars_cons (t : PathToken) (ts : List PathToken) :
    tokensChars (t :: ts) = tokChars t ++ tokensChars ts := rfl

theorem scanTemplate_nil (acc : List Char) :
    scanTemplate acc [] =
      if acc.isEmpty then [] else [.lit (String.mk acc.reverse)] := by
  rw [scanTemplate]

theorem scanTemplate_cons_some {c : Char} {cs' : List Char} {name : String}
    {rest : List Char} (h : readPlaceholder (c :: cs') = some (name, rest))
    (acc : List Char) :
    scanTemplate acc (c :: cs') =
      if acc.isEmpty then PathToken.var name :: scanTemplate [] rest
      else PathToken.lit (String.mk acc.reverse) :: PathToken.var name :: scanTemplate [] rest := by
  rw [scanTemplate]
  split
  · rename_i name' rest' heq
    rw [h] at heq
    injection heq with heq'
    injection heq' with h1 h2
    subst h1; subst h2; rfl
  · rename_i heq
    rw [h] at heq
    cases heq

theorem scanTemplate_cons_none {c : Char} {cs' : List Char}
    (h : readPlaceholder (c :: cs') = none) (acc : List Char) :
    scanTemplate acc (c :: cs') = scanTemplate (c :: acc) cs' := by
  rw [scanTemplate]
  split
  · rename_i name' rest' heq
    rw [h] at heq
    cases heq
  · rfl

/-- Tokenization is lossless: concatenating the surface text of the
produced tokens recovers the scanned text (with the pending accumulator
in front). -/
theorem tokensChars_scanTemplate (acc cs : List Char) :
    tokensChars (scanTemplate acc cs) = acc.reverse ++ cs := by
  induction acc, cs using scanTemplate.induct with
  | case1 acc hacc =>
    rw [List.isEmpty_iff] at hacc
    simp [scanTemplate_nil, hacc, tokensChars]
  | case2 acc hacc =>
    rw [scanTemplate_nil, if_neg hacc]
    simp [tokensChars, tokChars]
  | case3 acc c cs' name rest hread hacc ih =>
    rw [scanTemplate_cons_some hread, if_pos hacc, tokensChars_cons, ih]
    obtain ⟨ch, body, _, _, hname, hshape⟩ := readPlaceholder_some hread
    rw [List.isEmpty_iff] at hacc
    subst hacc
    rw [hshape, hname]
    simp [tokChars]
  | case4 acc c cs' name rest hread hacc ih =>
    rw [scanTemplate_cons_some hread, if_neg hacc, tokensChars_cons, tokensChars_cons, ih]
    obtain ⟨ch, body, _, _, hname, hshape⟩ := readPlaceholder_some hread
    rw [hshape, hname]
    simp [tokChars]
  | case5 acc c cs' hread ih =>
    rw [scanTemplate_cons_none hread, ih]
    simp

/-- Every variable token the scanner emits carries a name drawn from the
placeholder pattern's character classes. -/
theorem scanTemplate_var_names {acc cs : List Char} {n : String}
    (hmem : PathToken.var n ∈ scanTemplate acc cs) :
    ∃ c body, isNameStart c = true ∧ body.all isNameChar = true ∧
      n = String.mk (c :: body) := by
  induction acc, cs using scanTemplate.induct with
  | case1 acc hacc =>
    rw [scanTemplate_nil] at hmem
    split at hmem <;> simp_all
  | case2 acc hacc =>
    rw [scanTemplate_nil, if_neg hacc] at hmem
    simp at hmem
  | case3 acc c cs' name rest hread hacc ih =>
    rw [scanTemplate_cons_some hread, if_pos hacc] at hmem
    obtain ⟨ch, body, h1, h2, hname, hshape⟩ := readPlaceholder_some hread
    rcases List.mem_cons.mp hmem with heq | hrest
    · injection heq with heq'
      exact ⟨ch, body, h1, h2, heq'.trans hname⟩
    · exact ih hrest
  | case4 acc c cs' name rest hread hacc ih =>
    rw [scanTemplate_cons_some hread, if_neg hacc] at hmem
    obtain ⟨ch, body, h1, h2, hname, hshape⟩ := readPlaceholder_some hread
    rcases List.mem_cons.mp hmem with heq | hmem2
    · cases heq
    · rcases List.mem_cons.mp hmem2 with heq | hrest
      · injection heq with heq'
        exact ⟨ch, body, h1, h2, heq'.trans hname⟩
      · exact ih hrest
  | case5 acc c cs' hread ih =>
    rw [scanTemplate_cons_none hread] at hmem
    exact ih hmem

/-- Fuel-bounded version of `scanTemplate`: structurally recursive on the
fuel, so that the kernel can evaluate it on concrete inputs.  Each loop
iteration consumes at least one character, so fuel equal to the input
length suffices; `scanFuel_eq` proves it agrees with `scanTemplate`. -/
def scanFuel : Nat → List Char → List Char → List PathToken
  | _, acc, [] => if acc.isEmpty then [] else [.lit (String.mk acc.reverse)]
  | 0, _, _ :: _ => []
  | fuel + 1, acc, c :: cs' =>
    match readPlaceholder (c :: cs') with
    | some (name, rest) =>
      if acc.isEmpty then .var name :: scanFuel fuel [] rest
      else .lit (String.mk acc.reverse) :: .var name :: scanFuel fuel [] rest
    | none => scanFuel fuel (c :: acc) cs'

theorem scanFuel_eq (acc cs : List Char) :
    ∀ fuel : Nat, cs.length ≤ fuel → scanFuel fuel acc cs = scanTemplate acc cs := by
  induction acc, cs using scanTemplate.induct with
  | case1 acc hacc =>
    intro fuel _
    cases fuel <;> simp [scanFuel, scanTemplate_nil]
  | case2 acc hacc =>
    intro fuel _
    cases fuel <;> simp [scanFuel, scanTemplate_nil]
  | case3 acc c cs' name rest hread hacc ih =>
    intro fuel hf
    match fuel with
    | 0 => simp at hf
    | f + 1 =>
      have hrest : rest.length ≤ f := by
        have := readPlaceholder_shrinks hread
        simp at this hf
        omega
      rw [scanTemplate_cons_some hread, if_pos hacc]
      simp only [scanFuel]
      rw [hread]
      simp only [hacc, if_true]
      rw [ih f hrest]
  | case4 acc c cs' name rest hread hacc ih =>
    intro fuel hf
    match fuel with
    | 0 => simp at hf
    | f + 1 =>
      have hrest : rest.length ≤ f := by
        have := readPlaceholder_shrinks hread
        simp at this hf
        omega
      rw [scanTemplate_cons_some hread, if_neg hacc]
      simp only [scanFuel]
      rw [hread]
      simp only [hacc, if_false]
      rw [ih f hrest]
      simp
  | case5 acc c cs' hread ih =>
    intro fuel hf
    match fuel with
    | 0 => simp at hf
    | f + 1 =>
      have hcs : cs'.length ≤ f := by simp at hf; omega
      rw [scanTemplate_cons_none hread]
      simp only [scanFuel]
      rw [hread]
      rw [ih f hcs]

/-- `FolderTemplate._parse_template`: tokenize a raw template string.
Stated via the fuel-bounded scanner so it is kernel-computable;
`parseTokens_eq_scan` identifies it with the direct translation of the
Python loop. -/
def parseTokens (template : String) : List PathToken :=
  scanFuel template.data.length [] template.data

theorem parseTokens_eq_scan (template : String) :
    parseTokens template = scanTemplate [] template.data :=
  scanFuel_eq [] template.data template.data.length (Nat.le_refl _)

/-- The derived referenced-variable set of `value_objects.TemplatePath`
(the `variables` field), as the list of referenced names in order of
first occurrence; only membership in it is ever consulted. -/
def referencedNames (toks : List PathToken) : List String :=
  (toks.filterMap fun t => match t with | .var n => some n | .lit _ => none).dedup

/-- `TemplatePath.contains_variable`. -/
def containsVariable (toks : List PathToken) (name : String) : Bool :=
  toks.any fun t => match t with | .var n => n == name | .lit _ => false

/-! ## Python values and dict-like association lists -/

/-- The Python runtime values flowing through variable defaults, bindings
and allowed-value lists in this domain (`datetime` values are not
modelled; every date seen by the engine's own tests is a string). -/
inductive PyValue where
  | str (s : String)
  | int (n : Int)
  | bool (b : Bool)
deriving DecidableEq, Repr

/-- Python `str()` / `format(value, '')` of a value. -/
def pyStr : PyValue → String
  | .str s => s
  | .int n => toString n
  | .bool b => if b then "True" else "False"

/-- Python `==` on the modelled values (`True == 1` in Python). -/
def pyEq : PyValue → PyValue → Bool
  | .str a, .str b => a == b
  | .int a, .int b => a == b
  | .bool a, .bool b => a == b
  | .int a, .bool b => a == (if b then (1 : Int) else 0)
  | .bool a, .int b => (if a then (1 : Int) else 0) == b
  | _, _ => false

/-- Lookup in an insertion-ordered association list (a Python dict). -/
def lookupAssoc (l : List (String × α)) (k : String) : Option α :=
  (l.find? fun p => p.1 == k).map (·.2)

def hasKey (l : List (String × α)) (k : String) : Bool :=
  (l.find? fun p => p.1 == k).isSome

/-! ## Errors

The domain exceptions are modelled structurally: only the exception class
and the structured context it carries (variable name, template string)
are kept; human-readable message text is not modelled. -/

inductive DomError where
  | valueErr (info : String)
  | keyErr (info : String)
  | invalidTemplate (template : String) (reason : String)
  | varResolution (varName : String) (template : String)
deriving DecidableEq, Repr

/-! ## Enumerations (`model/enums.py`) -/

inductive VariableType where
  | string | integer | enum | date | boolean | context
deriving DecidableEq, Repr

inductive EntityType where
  | asset | shot | sequence | episode | series | project
deriving DecidableEq, Repr

inductive DataType where
  | work | published | cache | publishedCache | render | deliverable
deriving DecidableEq, Repr

inductive TemplateInheritance where
  | none | extend | override
deriving DecidableEq, Repr

/-! ## `value_objects.TemplateVariable` -/

structure TemplateVariable where
  name : String
  description : String := ""
  variableType : VariableType := .string
  required : Bool := true
  defaultValue : Option PyValue := none
  allowedValues : List PyValue := []
  validationPattern : Option String := none
deriving DecidableEq, Repr

/-- `TemplateVariable._validate_value`.  General regular-expression
matching against `validation_pattern` cannot be implemented here, so the
semantics of Python's `re.match` is taken as a parameter `reMatch`; all
theorems hold for every choice of it.  A `False` result models the
`ValueError` the Python method raises. -/
def validateValue (reMatch : String → String → Bool)
    (v : TemplateVariable) (value : PyValue) : Bool :=
  (v.allowedValues.isEmpty || v.allowedValues.any (fun a => pyEq a value)) &&
  ((match v.validationPattern, value with
    | some p, .str s => reMatch p s
    | _, _ => true)) &&
  (match v.variableType with
    | .integer => (match value with | .int _ => true | .bool _ => true | _ => false)
    | .date => (match value with | .str _ => true | _ => false)
    | .boolean => (match value with | .bool _ => true | _ => false)
    | .enum => !v.allowedValues.isEmpty
    | _ => true)

/-- The name check of `TemplateVariable.__post_init__`: Python's
`re.match` against the variable-name pattern anchored at both ends.
Python's end anchor also accepts a single trailing newline. -/
def coreNameOk : List Char → Bool
  | [] => false
  | c :: rest => isNameStart c && rest.all isNameChar

def pyNameOk (s : String) : Bool :=
  coreNameOk s.data ||
    (match s.data.getLast? with
     | some c => c == '\n' && coreNameOk s.data.dropLast
     | none => false)

/-- `TemplateVariable.__post_init__`: name check, then validation of the
default value when one is supplied. -/
def mkTemplateVariable (reMatch : String → String → Bool)
    (name description : String) (variableType : VariableType)
    (required : Bool) (defaultValue : Option PyValue)
    (allowedValues : List PyValue) (validationPattern : Option String) :
    Except DomError TemplateVariable :=
  if !pyNameOk name then .error (.valueErr name)
  else
    let v : TemplateVariable :=
      ⟨name, description, variableType, required, defaultValue,
        allowedValues, validationPattern⟩
    match defaultValue with
    | none => .ok v
    | some d => if validateValue reMatch v d then .ok v else .error (.valueErr name)

/-- Auto-declaration `TemplateVariable(name=var_name)` performed by
`FolderTemplate.__init__` for referenced-but-undeclared names: all other
fields take their defaults, so `__post_init__` reduces to the name check. -/
def autoVariable (n : String) : Except DomError TemplateVariable :=
  if pyNameOk n then .ok { name := n } else .error (.valueErr n)

/-! ## `entities.FolderTemplate`

`parsed_template` is stored (`tokens`) exactly as in Python, where it is
recomputed whenever the raw string changes.  `variables` is the
insertion-ordered dict as an association list keyed by variable name.
The `parent` object reference is embedded by value; no modelled
operation mutates a template after it has been linked as a parent, so
the embedding is observationally faithful for everything proved here.
Timestamps are not modelled. -/

inductive FolderTemplate where
  | mk (name : String) (rawTemplate : String) (description : String)
       (tokens : List PathToken) (vars : List TemplateVariable)
       (parent : Option FolderTemplate) (mode : TemplateInheritance)

def FolderTemplate.name : FolderTemplate → String
  | .mk n _ _ _ _ _ _ => n

def FolderTemplate.rawTemplate : FolderTemplate → String
  | .mk _ r _ _ _ _ _ => r

def FolderTemplate.description : FolderTemplate → String
  | .mk _ _ d _ _ _ _ => d

def FolderTemplate.tokens : FolderTemplate → List PathToken
  | .mk _ _ _ tk _ _ _ => tk

def FolderTemplate.vars : FolderTemplate → List TemplateVariable
  | .mk _ _ _ _ vs _ _ => vs

def FolderTemplate.parent : FolderTemplate → Option FolderTemplate
  | .mk _ _ _ _ _ p _ => p

def FolderTemplate.mode : FolderTemplate → TemplateInheritance
  | .mk _ _ _ _ _ _ m => m

def FolderTemplate.setRawTokens : FolderTemplate → String → List PathToken → FolderTemplate
  | .mk n _ d _ vs p m, r, tk => .mk n r d tk vs p m

def FolderTemplate.setDescription : FolderTemplate → String → FolderTemplate
  | .mk n r _ tk vs p m, d => .mk n r d tk vs p m

def FolderTemplate.setVars : FolderTemplate → List TemplateVariable → FolderTemplate
  | .mk n r d tk _ p m, vs => .mk n r d tk vs p m

def FolderTemplate.setParent : FolderTemplate → Option FolderTemplate → FolderTemplate
  | .mk n r d tk vs _ m, p => .mk n r d tk vs p m

def FolderTemplate.setMode : FolderTemplate → TemplateInheritance → FolderTemplate
  | .mk n r d tk vs p _, m => .mk n r d tk vs p m

def hasVarNamed (t : FolderTemplate) (n : String) : Bool :=
  t.vars.any fun w => w.name == n

/-- `FolderTemplate.add_variable`: rejects a duplicate name, otherwise
appends to the insertion-ordered dict. -/
def addVariable (t : FolderTemplate) (v : TemplateVariable) :
    Except DomError FolderTemplate :=
  if hasVarNamed t v.name then .error (.valueErr v.name)
  else .ok (t.setVars (t.vars ++ [v]))

/-- `FolderTemplate.remove_variable`: `KeyError` when absent,
`ValueError` when the token sequence still references the name. -/
def removeVariable (t : FolderTemplate) (n : String) :
    Except DomError FolderTemplate :=
  if !hasVarNamed t n then .error (.keyErr n)
  else if containsVariable t.tokens n then .error (.valueErr n)
  else .ok (t.setVars (t.vars.filter fun w => !(w.name == n)))

/-- `FolderTemplate.update_variable`: `KeyError` when absent, otherwise
replaces the entry under the same name in place. -/
def updateVariable (t : FolderTemplate) (v : TemplateVariable) :
    Except DomError FolderTemplate :=
  if !hasVarNamed t v.name then .error (.keyErr v.name)
  else .ok (t.setVars (t.vars.map fun w => if w.name == v.name then v else w))

/-- `FolderTemplate.validate`: raises `InvalidTemplateError` on the first
referenced-but-undeclared variable, else returns `True`.  (Python
iterates a `frozenset`, so which offender is named is unspecified; the
model names the first in order of occurrence.) -/
def validateTemplate (t : FolderTemplate) : Except DomError Bool :=
  match (referencedNames t.tokens).find? (fun n => !hasVarNamed t n) with
  | some n => .error (.invalidTemplate t.rawTemplate n)
  | none => .ok true

/-- Names of the variable tokens, with duplicates, in template order. -/
def varTokenNames (toks : List PathToken) : List String :=
  toks.filterMap fun t => match t with | .var n => some n | .lit _ => none

/-- The provided-variables loop of `FolderTemplate.__init__` (duplicate
names raise `ValueError` through `add_variable`). -/
def addProvidedVars : FolderTemplate → List TemplateVariable →
    Except DomError FolderTemplate
  | t, [] => .ok t
  | t, v :: vs =>
    match addVariable t v with
    | .ok t' => addProvidedVars t' vs
    | .error e => .error e

/-- The auto-declaration loop of `FolderTemplate.__init__`: every
referenced name still missing gets `TemplateVariable(name=var_name)`. -/
def addAutoVars : FolderTemplate → List String → Except DomError FolderTemplate
  | t, [] => .ok t
  | t, n :: ns =>
    if hasVarNamed t n then addAutoVars t ns
    else
      match autoVariable n with
      | .ok v =>
        match addVariable t v with
        | .ok t' => addAutoVars t' ns
        | .error e => .error e
      | .error e => .error e

/-- `FolderTemplate.__init__`: parse, add the provided variables, then
auto-declare every referenced name that is still missing.  (Python
iterates the referenced names as a `frozenset`; the resulting dict
membership does not depend on that order, and the model uses occurrence
order.) -/
def mkFolderTemplate (name template description : String)
    (providedVars : List TemplateVariable) (parent : Option FolderTemplate)
    (mode : TemplateInheritance) : Except DomError FolderTemplate :=
  match addProvidedVars
      (.mk name template description (parseTokens template) [] parent mode)
      providedVars with
  | .error e => .error e
  | .ok t1 => addAutoVars t1 (varTokenNames (parseTokens template))

/-- `FolderTemplate.get_effective_template`. -/
def getEffectiveTemplate : FolderTemplate → String
  | .mk _ raw _ _ _ none _ => raw
  | .mk _ raw _ _ _ (some p) mode =>
    match mode with
    | .none => raw
    | .override => raw
    | .extend => getEffectiveTemplate p ++ "/" ++ raw

/-! ## Regex synthesis (`FolderStructureService._template_to_regex`)

The Python method escapes the raw template with `re.escape` and then
replaces every escaped placeholder with a named group matching one or
more non-separator characters.  Locating escaped placeholders in the
escaped string is equivalent to locating placeholders in the raw string:
`re.escape` maps every brace to a backslash-brace pair and leaves the
name characters untouched, and the name classes contain no brace, so the
substitution fires exactly at the placeholders `_parse_template` finds —
both functions use the same placeholder pattern.  The synthesized
pattern is therefore a sequence of verbatim literal chunks (the escaped
literals match exactly their original text) and named groups. -/

inductive RegexChunk where
  | lit (s : String)
  | group (name : String)
deriving DecidableEq, Repr

def chunkOfToken : PathToken → RegexChunk
  | .lit s => .lit s
  | .var n => .group n

def templateToRegex (template : String) : List RegexChunk :=
  (parseTokens template).map chunkOfToken

def groupNames (chunks : List RegexChunk) : List String :=
  chunks.filterMap fun c => match c with | .group n => some n | .lit _ => none

/-- Length of the maximal non-separator run at the head: the largest
number of characters a group can consume. -/
def maxNonSep (cs : List Char) : Nat := (cs.takeWhile (· != '/')).length

/-- `re.fullmatch` of a synthesized pattern: literal chunks match
verbatim; each named group greedily consumes the longest nonempty
non-separator run that lets the remainder match, shrinking one character
at a time, exactly Python's backtracking order.  Captures are returned
in pattern order (the order of `match.groupdict()`). -/
def matchChunks : List RegexChunk → List Char → Option (List (String × String))
  | [], cs => if cs.isEmpty then some [] else none
  | .lit s :: rest, cs =>
    if s.data.isPrefixOf cs then matchChunks rest (cs.drop s.data.length) else none
  | .group n :: rest, cs =>
    (List.iota (maxNonSep cs)).findSome? fun k =>
      (matchChunks rest (cs.drop k)).map fun caps => (n, String.mk (cs.take k)) :: caps

/-- `FolderStructureService._match_template`.  Compiling a pattern with
two groups of the same name raises `re.error` in Python before any
matching happens; this is the `.error` case. -/
def matchTemplate (path template : String) :
    Except Unit (Option (List (String × String))) :=
  let chunks := templateToRegex template
  if (groupNames chunks).Nodup then .ok (matchChunks chunks path.data)
  else .error ()

/-! ## `entities.StudioMapping` -/

structure StudioMapping where
  name : String := ""
  description : String := ""
  assetPublishedPath : Option FolderTemplate := none
  assetWorkPath : Option FolderTemplate := none
  shotPublishedPath : Option FolderTemplate := none
  shotWorkPath : Option FolderTemplate := none
  renderPath : Option FolderTemplate := none
  cachePath : Option FolderTemplate := none
  assetPublishedCachePath : Option FolderTemplate := none
  shotPublishedCachePath : Option FolderTemplate := none
  deliverablePath : Option FolderTemplate := none

/-- `StudioMapping.get_template_for_entity`: note that for `RENDER`,
`CACHE` and `DELIVERABLE` the `ASSET` and `SHOT` branches read the same
attribute, and entity types other than `ASSET`/`SHOT` fall through to
`None`. -/
def getTemplateForEntity (m : StudioMapping) (e : EntityType) (d : DataType) :
    Option FolderTemplate :=
  match e with
  | .asset =>
    match d with
    | .published => m.assetPublishedPath
    | .work => m.assetWorkPath
    | .render => m.renderPath
    | .cache => m.cachePath
    | .publishedCache => m.assetPublishedCachePath
    | .deliverable => m.deliverablePath
  | .shot =>
    match d with
    | .published => m.shotPublishedPath
    | .work => m.shotWorkPath
    | .render => m.renderPath
    | .cache => m.cachePath
    | .publishedCache => m.shotPublishedCachePath
    | .deliverable => m.deliverablePath
  | _ => none

/-- `StudioMapping.set_template_for_entity`: the mirror image of the
getter; entity types other than `ASSET`/`SHOT` update nothing. -/
def setTemplateForEntity (m : StudioMapping) (e : EntityType) (d : DataType)
    (t : FolderTemplate) : StudioMapping :=
  match e with
  | .asset =>
    match d with
    | .published => { m with assetPublishedPath := some t }
    | .work => { m with assetWorkPath := some t }
    | .render => { m with renderPath := some t }
    | .cache => { m with cachePath := some t }
    | .publishedCache => { m with assetPublishedCachePath := some t }
    | .deliverable => { m with deliverablePath := some t }
  | .shot =>
    match d with
    | .published => { m with shotPublishedPath := some t }
    | .work => { m with shotWorkPath := some t }
    | .render => { m with renderPath := some t }
    | .cache => { m with cachePath := some t }
    | .publishedCache => { m with shotPublishedCachePath := some t }
    | .deliverable => { m with deliverablePath := some t }
  | _ => m

/-- The nine storage attributes of a `StudioMapping`; the analysis
vocabulary for stating which (entity, data) pairs alias each other. -/
inductive MappingSlot where
  | assetPublished | assetWork | shotPublished | shotWork
  | render | cache | assetPublishedCache | shotPublishedCache | deliverable
deriving DecidableEq, Repr

/-- Which storage attribute a (entity, data) pair reads and writes,
derived from the branch structure of the getter/setter. -/
def slotOf (e : EntityType) (d : DataType) : Option MappingSlot :=
  match e with
  | .asset =>
    match d with
    | .published => some .assetPublished
    | .work => some .assetWork
    | .render => some .render
    | .cache => some .cache
    | .publishedCache => some .assetPublishedCache
    | .deliverable => some .deliverable
  | .shot =>
    match d with
    | .published => some .shotPublished
    | .work => some .shotWork
    | .render => some .render
    | .cache => some .cache
    | .publishedCache => some .shotPublishedCache
    | .deliverable => some .deliverable
  | _ => none

/-! ## Backward analysis (`FolderStructureService._analyze_path`) -/

/-- The ordered candidate list built at the top of `_analyze_path`: the
four core slots unconditionally, then the optional slots, with the
shared `render`/`cache`/`deliverable` attributes tried for asset first
and shot second. -/
def analyzeCandidates (m : StudioMapping) :
    List (EntityType × DataType × Option FolderTemplate) :=
  [(.asset, .published, m.assetPublishedPath),
   (.asset, .work, m.assetWorkPath),
   (.shot, .published, m.shotPublishedPath),
   (.shot, .work, m.shotWorkPath)]
  ++ (if m.renderPath.isSome then
        [(.asset, .render, m.renderPath), (.shot, .render, m.renderPath)]
      else [])
  ++ (if m.cachePath.isSome then
        [(.asset, .cache, m.cachePath), (.shot, .cache, m.cachePath)]
      else [])
  ++ (if m.assetPublishedCachePath.isSome then
        [(.asset, .publishedCache, m.assetPublishedCachePath)]
      else [])
  ++ (if m.shotPublishedCachePath.isSome then
        [(.shot, .publishedCache, m.shotPublishedCachePath)]
      else [])
  ++ (if m.deliverablePath.isSome then
        [(.asset, .deliverable, m.deliverablePath), (.shot, .deliverable, m.deliverablePath)]
      else [])

/-- The scanning loop of `_analyze_path`: unset slots are skipped, and a
slot wins only when `_match_template` returns a *nonempty* capture dict
(`if variables:` is false for the empty dict).  A `re.error` from a
pattern with duplicate group names propagates out. -/
def analyzeLoop (path : String) :
    List (EntityType × DataType × Option FolderTemplate) →
    Except Unit (Option (EntityType × DataType × List (String × String)))
  | [] => .ok none
  | (_, _, none) :: rest => analyzeLoop path rest
  | (e, d, some t) :: rest =>
    match matchTemplate path t.rawTemplate with
    | .error er => .error er
    | .ok none => analyzeLoop path rest
    | .ok (some caps) =>
      if caps.isEmpty then analyzeLoop path rest else .ok (some (e, d, caps))

/-- `FolderStructureService._analyze_path`. -/
def analyzePath (path : String) (m : StudioMapping) :
    Except Unit (Option (EntityType × DataType × List (String × String))) :=
  analyzeLoop path (analyzeCandidates m)

/-! ## Python `str.format` (used by `FolderTemplate.format`)

`format` calls `string.Formatter().parse(raw)` to collect the referenced
field names and then `raw.format(**format_args)` to substitute them.
Both walk the format string with the same field grammar, modelled by the
character automaton `pyScanGo`: doubled braces are literal braces, a
single closing brace is an error, and a field runs from an opening brace
to the next closing brace, its name being the part before any `:` or `!`
(format specs, conversions, nested-brace specs, and attribute/index
field paths are outside the modelled fragment; a field using them is
marked not-plain and substituting it is modelled as the unsupported
case). -/

inductive FmtPiece where
  | lit (c : Char)
  | field (name : String) (plain : Bool)
deriving DecidableEq, Repr

def fieldNamePart (inner : List Char) : String :=
  String.mk (inner.takeWhile fun c => !(c == ':') && !(c == '!'))

def fieldIsPlain (inner : List Char) : Bool :=
  inner.all fun c => !(c == ':') && !(c == '!')

/-- Field-grammar automaton: the first argument is `none` outside a
field and `some inner` (reversed field characters) inside one. -/
def pyScanGo : Option (List Char) → List Char → Except Unit (List FmtPiece)
  | none, [] => .ok []
  | none, c :: cs =>
    if c == '{' then
      match cs with
      | d :: cs2 =>
        if d == '{' then (pyScanGo none cs2).map (.lit '{' :: ·)
        else if d == '}' then
          (pyScanGo none cs2).map (.field (fieldNamePart []) (fieldIsPlain []) :: ·)
        else pyScanGo (some [d]) cs2
      | [] => .error ()
    else if c == '}' then
      match cs with
      | d :: cs2 => if d == '}' then (pyScanGo none cs2).map (.lit '}' :: ·) else .error ()
      | [] => .error ()
    else (pyScanGo none cs).map (.lit c :: ·)
  | some inner, [] => .error ()
  | some inner, c :: cs =>
    if c == '}' then
      (pyScanGo none cs).map
        (.field (fieldNamePart inner.reverse) (fieldIsPlain inner.reverse) :: ·)
    else pyScanGo (some (c :: inner)) cs

def pyScan (cs : List Char) : Except Unit (List FmtPiece) :=
  pyScanGo none cs

/-- The field names `string.Formatter().parse` yields (the
`required_keys` of `FolderTemplate.format`). -/
def fieldNames (pieces : List FmtPiece) : List String :=
  pieces.filterMap fun p => match p with | .field n _ => some n | .lit _ => none

inductive RenderErr where
  | keyMissing (n : String)
  | unsupported
deriving DecidableEq, Repr

/-- Substitution pass of `raw.format(**args)`: fields are resolved left
to right, a missing key is Python's `KeyError`. -/
def renderPieces (args : List (String × PyValue)) : List FmtPiece → Except RenderErr (List Char)
  | [] => .ok []
  | .lit c :: ps => (renderPieces args ps).map (c :: ·)
  | .field n plain :: ps =>
    if plain then
      match lookupAssoc args n with
      | some v => (renderPieces args ps).map ((pyStr v).data ++ ·)
      | none => .error (.keyMissing n)
    else .error .unsupported

/-! ## `FolderTemplate.format` -/

/-- The `format_args` construction loop of `FolderTemplate.format`: for
each declared variable in dict order, a supplied binding is validated
(`ValueError` on failure) and used, else the default is used, else the
variable contributes nothing. -/
def buildFormatArgs (reMatch : String → String → Bool) :
    List TemplateVariable → List (String × PyValue) →
    Except DomError (List (String × PyValue))
  | [], _ => .ok []
  | v :: vs, kwargs =>
    match lookupAssoc kwargs v.name with
    | some val =>
      if validateValue reMatch v val then
        (buildFormatArgs reMatch vs kwargs).map ((v.name, val) :: ·)
      else .error (.valueErr v.name)
    | none =>
      match v.defaultValue with
      | some d => (buildFormatArgs reMatch vs kwargs).map ((v.name, d) :: ·)
      | none => buildFormatArgs reMatch vs kwargs

/-- `FolderTemplate.format`.  Stages, in source order:
1. the pre-check loop raising `VariableResolutionError` for the first
   declared variable that is required, unbound and without default —
   this is the only raise outside the `try` block, hence the only one
   that escapes as `VariableResolutionError`;
2. `format_args` construction (`ValueError` for an invalid value),
   followed by the pass-through of extra bindings;
3. inside `try`: field collection (a parse failure becomes
   `InvalidTemplateError` via `except Exception`), the missing-keys
   check — whose deliberately raised `VariableResolutionError` is
   *itself* caught by `except Exception` and re-wrapped as
   `InvalidTemplateError`, since `VariableResolutionError` is not a
   `KeyError` — and finally substitution, whose `KeyError` branch is
   re-raised as `VariableResolutionError`. -/
def formatTemplate (reMatch : String → String → Bool) (t : FolderTemplate)
    (kwargs : List (String × PyValue)) : Except DomError String :=
  match t.vars.find? (fun v =>
      v.required && !(hasKey kwargs v.name) && v.defaultValue.isNone) with
  | some v => .error (.varResolution v.name t.rawTemplate)
  | none =>
    match buildFormatArgs reMatch t.vars kwargs with
    | .error e => .error e
    | .ok args0 =>
      let args := args0 ++ kwargs.filter fun kv => !hasKey args0 kv.1
      match pyScan t.rawTemplate.data with
      | .error _ => .error (.invalidTemplate t.rawTemplate "format parse failed")
      | .ok pieces =>
        if (fieldNames pieces).all (fun n => hasKey args n) then
          match renderPieces args pieces with
          | .ok cs => .ok (String.mk cs)
          | .error (.keyMissing n) => .error (.varResolution n t.rawTemplate)
          | .error .unsupported => .error (.invalidTemplate t.rawTemplate "format failed")
        else .error (.invalidTemplate t.rawTemplate "missing key")

/-! ## `entities.TemplateGroup` and `aggregates.TemplateGroupAggregate` -/

structure TemplateGroup where
  name : String := ""
  description : String := ""
  templates : List (String × FolderTemplate) := []

/-- In-place update of the dict entry under `k` (position preserved). -/
def setTemplateEntry (l : List (String × FolderTemplate)) (k : String)
    (t : FolderTemplate) : List (String × FolderTemplate) :=
  l.map fun p => if p.1 == k then (p.1, t) else p

/-- The provided-variables re-adding loop of `update_template`; on a
duplicate-name `ValueError` the partially refilled dict is kept, as the
Python exception aborts the loop mid-mutation. -/
def addVarsPartial : FolderTemplate → List TemplateVariable →
    FolderTemplate × Option DomError
  | t, [] => (t, none)
  | t, v :: vs =>
    match addVariable t v with
    | .ok t' => addVarsPartial t' vs
    | .error e => (t, some e)

/-- The auto-declaration loop of `update_template` for referenced names
missing after the wholesale variable replacement. -/
def autoAddPartial : FolderTemplate → List String →
    FolderTemplate × Option DomError
  | t, [] => (t, none)
  | t, n :: ns =>
    if hasVarNamed t n then autoAddPartial t ns
    else
      match autoVariable n with
      | .ok v =>
        match addVariable t v with
        | .ok t' => autoAddPartial t' ns
        | .error e => (t, some e)
      | .error e => (t, some e)

/-- Raw-string update step of `update_template`: the new string is
stored and reparsed in place. -/
def applyRawStep (t : FolderTemplate) : Option String → FolderTemplate
  | some s => t.setRawTokens s (parseTokens s)
  | none => t

def applyDescStep (t : FolderTemplate) : Option String → FolderTemplate
  | some d => t.setDescription d
  | none => t

/-- Wholesale variable replacement step of `update_template`: clear the
dict, re-add the supplied variables, then auto-declare missing
referenced names. -/
def applyVarsStep (t : FolderTemplate) :
    Option (List TemplateVariable) → FolderTemplate × Option DomError
  | none => (t, none)
  | some vs =>
    match addVarsPartial (t.setVars []) vs with
    | (tp, some e) => (tp, some e)
    | (tp, none) => autoAddPartial tp (varTokenNames tp.tokens)

/-- Parent update step of `update_template`: an empty string clears the
parent; an unknown name is a `KeyError` (raised after the earlier
mutations have been applied). -/
def applyParentStep (templates : List (String × FolderTemplate))
    (t : FolderTemplate) : Option String → FolderTemplate × Option DomError
  | none => (t, none)
  | some pn =>
    if pn == "" then (t.setParent none, none)
    else
      match lookupAssoc templates pn with
      | none => (t, some (.keyErr pn))
      | some p => (t.setParent (some p), none)

def applyModeStep (t : FolderTemplate) :
    Option TemplateInheritance → FolderTemplate
  | some m => t.setMode m
  | none => t

/-- `TemplateGroupAggregate.update_template`.  Python mutates the stored
template object field by field and only then validates; nothing is
rolled back when a later step raises, so the returned group always
carries every mutation applied before the failure point.  The parent is
looked up in the group as it stands at that moment (the entry under
`name` already mutated). -/
def updateTemplateOp (g : TemplateGroup) (name : String)
    (template : Option String) (description : Option String)
    (varsUpdate : Option (List TemplateVariable))
    (parentName : Option String) (mode : Option TemplateInheritance) :
    TemplateGroup × Except DomError FolderTemplate :=
  match lookupAssoc g.templates name with
  | none => (g, .error (.keyErr name))
  | some t =>
    let t2 := applyDescStep (applyRawStep t template) description
    match applyVarsStep t2 varsUpdate with
    | (t3, some e) =>
      ({ g with templates := setTemplateEntry g.templates name t3 }, .error e)
    | (t3, none) =>
      match applyParentStep (setTemplateEntry g.templates name t3) t3 parentName with
      | (t4, some e) =>
        ({ g with templates := setTemplateEntry g.templates name t4 }, .error e)
      | (t4, none) =>
        let t5 := applyModeStep t4 mode
        match validateTemplate t5 with
        | .ok _ =>
          ({ g with templates := setTemplateEntry g.templates name t5 }, .ok t5)
        | .error e =>
          ({ g with templates := setTemplateEntry g.templates name t5 }, .error e)

/-! ## Claim-support definitions -/

/-- Modelled from the spec: the spec's variable-name pattern — an
uppercase letter followed by uppercase letters, digits or underscores
(the code's pattern additionally allows a leading underscore). -/
def specVarNameOk (s : String) : Bool :=
  match s.data with
  | [] => false
  | c :: rest => isUpperAZ c && rest.all isNameChar

/-- Reading a mapping through its storage attribute. -/
def slotGetS (m : StudioMapping) : MappingSlot → Option FolderTemplate
  | .assetPublished => m.assetPublishedPath
  | .assetWork => m.assetWorkPath
  | .shotPublished => m.shotPublishedPath
  | .shotWork => m.shotWorkPath
  | .render => m.renderPath
  | .cache => m.cachePath
  | .assetPublishedCache => m.assetPublishedCachePath
  | .shotPublishedCache => m.shotPublishedCachePath
  | .deliverable => m.deliverablePath

/-- Writing a mapping through its storage attribute. -/
def slotSetS (m : StudioMapping) (t : FolderTemplate) : MappingSlot → StudioMapping
  | .assetPublished => { m with assetPublishedPath := some t }
  | .assetWork => { m with assetWorkPath := some t }
  | .shotPublished => { m with shotPublishedPath := some t }
  | .shotWork => { m with shotWorkPath := some t }
  | .render => { m with renderPath := some t }
  | .cache => { m with cachePath := some t }
  | .assetPublishedCache => { m with assetPublishedCachePath := some t }
  | .shotPublishedCache => { m with shotPublishedCachePath := some t }
  | .deliverable => { m with deliverablePath := some t }

theorem getTemplate_eq_slot (m : StudioMapping) (e : EntityType) (d : DataType) :
    getTemplateForEntity m e d =
      (match slotOf e d with
       | none => none
       | some s => slotGetS m s) := by
  cases e <;> cases d <;> rfl

theorem setTemplate_eq_slot (m : StudioMapping) (e : EntityType) (d : DataType)
    (t : FolderTemplate) :
    setTemplateForEntity m e d t =
      (match slotOf e d with
       | none => m
       | some s => slotSetS m t s) := by
  cases e <;> cases d <;> rfl

/-! ## Claims C3, C4, C7, C9 -/

def c3parent : FolderTemplate := .mk "base" "/p" "" (parseTokens "/p") [] none .none

def c3child : FolderTemplate :=
  .mk "c" "/c" "" (parseTokens "/c") [] (some c3parent) .extend

/-- C3 counterexample: the claim says a duplicate separator is trimmed,
but `get_effective_template` concatenates unconditionally, so a parent
ending before a child whose raw string starts with the separator yields
a doubled separator. -/
theorem c3_counterexample :
    c3child.parent = some c3parent ∧ c3child.mode = .extend ∧
    getEffectiveTemplate c3parent = "/p" ∧ c3child.rawTemplate = "/c" ∧
    getEffectiveTemplate c3child = "/p//c" ∧ "/p//c" ≠ "/p/c" := by
  refine ⟨rfl, rfl, rfl, rfl, rfl, by decide⟩

/-- C3 (amended): for a template with a parent, EXTEND yields the
parent's effective template, a separator, and the child's raw string
with no trimming of duplicate separators; OVERRIDE and NONE yield the
child's raw string unchanged. -/
theorem c3_effective_template (t p : FolderTemplate) (hp : t.parent = some p) :
    (t.mode = .extend →
      getEffectiveTemplate t = getEffectiveTemplate p ++ "/" ++ t.rawTemplate) ∧
    (t.mode = .override ∨ t.mode = .none → getEffectiveTemplate t = t.rawTemplate) := by
  obtain ⟨n, raw, d, tk, vs, par, md⟩ := t
  simp only [FolderTemplate.parent] at hp
  subst hp
  constructor
  · intro hm
    simp only [FolderTemplate.mode] at hm
    subst hm
    rfl
  · intro hm
    rcases hm with hm | hm <;>
      simp only [FolderTemplate.mode] at hm <;> subst hm <;> rfl

theorem c3_witness :
    c3child.parent = some c3parent ∧ c3child.mode = .extend ∧
    getEffectiveTemplate c3child =
      getEffectiveTemplate c3parent ++ "/" ++ c3child.rawTemplate :=
  ⟨rfl, rfl, (c3_effective_template c3child c3parent rfl).1 rfl⟩

def sampleTemplateA : FolderTemplate :=
  .mk "t" "/x/{A}" "" (parseTokens "/x/{A}") [{ name := "A" }] none .none

/-- C4 counterexample: `(ASSET, RENDER)` and `(SHOT, RENDER)` read and
write the same `render_path` attribute, so setting the former changes
the latter. -/
theorem c4_counterexample :
    getTemplateForEntity
        (setTemplateForEntity {} .asset .render sampleTemplateA) .shot .render =
      some sampleTemplateA ∧
    getTemplateForEntity {} .shot .render = none := ⟨rfl, rfl⟩

/-- C4 (amended): pairs backed by distinct storage attributes are
independent, but `(ASSET, d)` and `(SHOT, d)` share one attribute for
`d` among RENDER, CACHE and DELIVERABLE, and entity types other than
ASSET and SHOT have no attribute at all (setting is a no-op and getting
yields none). -/
theorem c4_slot_frame :
    (∀ (m : StudioMapping) (e e' : EntityType) (d d' : DataType) (t : FolderTemplate),
      slotOf e' d' ≠ slotOf e d →
      getTemplateForEntity (setTemplateForEntity m e d t) e' d' =
        getTemplateForEntity m e' d') ∧
    (∀ (m : StudioMapping) (t : FolderTemplate) (d : DataType),
      (d = .render ∨ d = .cache ∨ d = .deliverable) →
      getTemplateForEntity (setTemplateForEntity m .asset d t) .shot d = some t) ∧
    (∀ (m : StudioMapping) (e : EntityType) (d : DataType) (t : FolderTemplate),
      slotOf e d = none →
      setTemplateForEntity m e d t = m ∧ getTemplateForEntity m e d = none) := by
  refine ⟨?_, ?_, ?_⟩
  · intro m e e' d d' t hne
    rw [getTemplate_eq_slot, getTemplate_eq_slot, setTemplate_eq_slot]
    rcases h1 : slotOf e d with _ | s
    · rfl
    · rcases h2 : slotOf e' d' with _ | s'
      · rfl
      · rw [h1, h2] at hne
        have hss : s' ≠ s := by intro hc; exact hne (by rw [hc])
        cases s <;> cases s' <;> simp_all [slotGetS, slotSetS]
  · intro m t d hd
    rcases hd with hd | hd | hd <;> subst hd <;> rfl
  · intro m e d t hnone
    rw [setTemplate_eq_slot, getTemplate_eq_slot, hnone]
    exact ⟨rfl, rfl⟩

theorem c4_witness :
    (slotOf .asset .work ≠ slotOf .asset .published ∧
      getTemplateForEntity
          (setTemplateForEntity {} .asset .published sampleTemplateA) .asset .work =
        getTemplateForEntity {} .asset .work) ∧
    getTemplateForEntity
        (setTemplateForEntity {} .asset .cache sampleTemplateA) .shot .cache =
      some sampleTemplateA ∧
    (slotOf .project .work = none ∧
      setTemplateForEntity {} .project .work sampleTemplateA = ({} : StudioMapping)) :=
  ⟨⟨by decide, c4_slot_frame.1 {} .asset .asset .published .work sampleTemplateA (by decide)⟩,
   c4_slot_frame.2.1 {} sampleTemplateA .cache (Or.inr (Or.inl rfl)),
   ⟨rfl, (c4_slot_frame.2.2 {} .project .work sampleTemplateA rfl).1⟩⟩

/-- C7 counterexample: the code's name pattern allows a leading
underscore, so a `TemplateVariable` named with a leading underscore is
constructed successfully although the spec's pattern rejects that name. -/
theorem c7_counterexample :
    mkTemplateVariable (fun _ _ => true) "_ABC" "" .string true none [] none =
      .ok { name := "_ABC" } ∧
    specVarNameOk "_ABC" = false := ⟨rfl, by decide⟩

/-- C7 (amended): with no default value, constructing a
`TemplateVariable` succeeds exactly when the name is nonempty, starts
with an uppercase letter or an underscore, and continues with uppercase
letters, digits or underscores — optionally followed by one trailing
newline, which Python's end anchor tolerates. -/
theorem c7_name_pattern (reMatch : String → String → Bool)
    (name description : String) (vt : VariableType) (req : Bool)
    (allowed : List PyValue) (pat : Option String) :
    (∃ v, mkTemplateVariable reMatch name description vt req none allowed pat =
        .ok v) ↔
      ((∃ c cs, name.data = c :: cs ∧ isNameStart c = true ∧
          ∀ x ∈ cs, isNameChar x = true) ∨
       (∃ c cs, name.data = c :: cs ++ ['\n'] ∧ isNameStart c = true ∧
          ∀ x ∈ cs, isNameChar x = true)) := by
  have hcore : ∀ l : List Char, coreNameOk l = true ↔
      ∃ c cs, l = c :: cs ∧ isNameStart c = true ∧ ∀ x ∈ cs, isNameChar x = true := by
    intro l
    cases l with
    | nil => simp [coreNameOk]
    | cons c cs =>
      simp only [coreNameOk, Bool.and_eq_true, List.all_eq_true]
      constructor
      · rintro ⟨h1, h2⟩
        exact ⟨c, cs, rfl, h1, h2⟩
      · rintro ⟨c', cs', heq, h1, h2⟩
        injection heq with e1 e2
        subst e1
        subst e2
        exact ⟨h1, h2⟩
  constructor
  · rintro ⟨v, hv⟩
    simp only [mkTemplateVariable] at hv
    by_cases hname : pyNameOk name = true
    · simp only [pyNameOk, Bool.or_eq_true] at hname
      rcases hname with hname | hname
      · exact Or.inl ((hcore _).mp hname)
      · right
        rcases hlast : name.data.getLast? with _ | c
        · rw [hlast] at hname; simp at hname
        · rw [hlast] at hname
          simp only [Bool.and_eq_true, beq_iff_eq] at hname
          obtain ⟨hc, hcore'⟩ := hname
          obtain ⟨c0, cs0, hsplit, h1, h2⟩ := (hcore _).mp hcore'
          refine ⟨c0, cs0, ?_, h1, h2⟩
          have hne : name.data ≠ [] := by
            intro hnil; rw [hnil] at hlast; simp at hlast
          have hgl := List.dropLast_append_getLast hne
          rw [List.getLast?_eq_getLast _ hne] at hlast
          injection hlast with hlast'
          rw [hsplit, hlast', hc] at hgl
          exact hgl.symm
    · have hfalse : pyNameOk name = false := by
        revert hname; cases pyNameOk name <;> simp
      rw [hfalse] at hv
      simp at hv
  · intro h
    have hname : pyNameOk name = true := by
      rcases h with ⟨c, cs, hd, h1, h2⟩ | ⟨c, cs, hd, h1, h2⟩
      · simp only [pyNameOk, Bool.or_eq_true]
        exact Or.inl ((hcore _).mpr ⟨c, cs, hd, h1, h2⟩)
      · simp only [pyNameOk, Bool.or_eq_true]
        right
        have hlast : name.data.getLast? = some '\n' := by
          rw [hd]
          rw [List.getLast?_eq_getLast _ (by simp)]
          simp [List.getLast_append]
        rw [hlast]
        simp only [Bool.and_eq_true, beq_iff_eq]
        refine ⟨by simp, (hcore _).mpr ⟨c, cs, ?_, h1, h2⟩⟩
        rw [hd]
        rw [show (c :: cs ++ ['\n'] : List Char) = (c :: cs) ++ ['\n'] by simp]
        rw [List.dropLast_concat]
    simp [mkTemplateVariable, hname]

/-- C9 counterexample: a placeholder whose name starts with an
underscore does not match the spec's UPPER_SNAKE pattern, yet the
parser emits it as a variable token rather than a literal. -/
theorem c9_counterexample :
    parseTokens "{_X}" = [.var "_X"] ∧ specVarNameOk "_X" = false := by
  exact ⟨by decide, by decide⟩

/-- C9 (amended): tokenization is total and lossless — the tokens
reconstruct the input — and every variable token's name starts with an
uppercase letter or underscore and continues with uppercase letters,
digits or underscores (the code's class, which unlike the spec's admits
a leading underscore); all remaining text is carried by literal tokens. -/
theorem c9_parse_total (s : String) :
    tokensChars (parseTokens s) = s.data ∧
    (∀ n, PathToken.var n ∈ parseTokens s →
      ∃ c body, isNameStart c = true ∧ body.all isNameChar = true ∧
        n = String.mk (c :: body)) := by
  constructor
  · rw [parseTokens_eq_scan, tokensChars_scanTemplate]
    rfl
  · intro n hn
    rw [parseTokens_eq_scan] at hn
    exact scanTemplate_var_names hn

theorem c9_witness :
    tokensChars (parseTokens "a{B}\x7bx") = "a{B}\x7bx".data ∧
    (∃ c body, isNameStart c = true ∧ body.all isNameChar = true ∧
      "B" = String.mk (c :: body)) :=
  ⟨(c9_parse_total "a{B}\x7bx").1, (c9_parse_total "a{B}\x7bx").2 "B" (by decide)⟩

/-! ## Claims C2, C6, C8 -/

def c2parent : FolderTemplate :=
  .mk "base" "/p/{X}" "" (parseTokens "/p/{X}") [{ name := "X" }] none .none

def c2child : FolderTemplate :=
  .mk "child" "c/{Y}" "" (parseTokens "c/{Y}") [{ name := "Y" }]
    (some c2parent) .extend

def c2orphan : FolderTemplate :=
  .mk "child" "c/{Y}" "" (parseTokens "c/{Y}") [{ name := "Y" }] none .none

/-- C2 counterexample: for an EXTEND child, `format` renders only the
child's own raw string — its output does not even match the pattern of
the effective template — and the analysis regex is synthesized from
`raw_template`, so neither operation consults
`get_effective_template()`. -/
theorem c2_counterexample :
    getEffectiveTemplate c2child = "/p/{X}/c/{Y}" ∧
    formatTemplate (fun _ _ => true) c2child
        [("X", .str "x"), ("Y", .str "y")] = .ok "c/y" ∧
    matchChunks (templateToRegex (getEffectiveTemplate c2child)) "c/y".data = none ∧
    matchTemplate "c/y" c2child.rawTemplate = .ok (some [("Y", "y")]) ∧
    "c/y" ≠ "/p/x/c/y" :=
  ⟨rfl, rfl, rfl, rfl, by decide⟩

/-- C2 (amended): forward formatting and backward matching both read
only the template's own raw string; the parent reference and the
inheritance mode are never consulted, and `get_effective_template()`
plays no part in either operation. -/
theorem c2_raw_only :
    (∀ (reMatch : String → String → Bool) (n raw desc : String)
       (toks : List PathToken) (vs : List TemplateVariable)
       (p₁ p₂ : Option FolderTemplate) (m₁ m₂ : TemplateInheritance)
       (kwargs : List (String × PyValue)),
      formatTemplate reMatch (.mk n raw desc toks vs p₁ m₁) kwargs =
        formatTemplate reMatch (.mk n raw desc toks vs p₂ m₂) kwargs) ∧
    (∀ (path : String) (t t' : FolderTemplate),
      t.rawTemplate = t'.rawTemplate →
      matchTemplate path t.rawTemplate = matchTemplate path t'.rawTemplate) ∧
    (∀ (path : String) (e : EntityType) (d : DataType)
       (t t' : FolderTemplate)
       (rest : List (EntityType × DataType × Option FolderTemplate)),
      t.rawTemplate = t'.rawTemplate →
      analyzeLoop path ((e, d, some t) :: rest) =
        analyzeLoop path ((e, d, some t') :: rest)) := by
  refine ⟨fun _ _ _ _ _ _ _ _ _ _ _ => rfl, fun path t t' h => by rw [h], ?_⟩
  intro path e d t t' rest h
  simp only [analyzeLoop]
  rw [h]

theorem c2_witness :
    formatTemplate (fun _ _ => true) c2child [("Y", .str "y")] =
      formatTemplate (fun _ _ => true) c2orphan [("Y", .str "y")] ∧
    analyzeLoop "c/y" [(.asset, .work, some c2child)] =
      analyzeLoop "c/y" [(.asset, .work, some c2orphan)] :=
  ⟨c2_raw_only.1 (fun _ _ => true) "child" "c/{Y}" "" (parseTokens "c/{Y}")
      [{ name := "Y" }] (some c2parent) none .extend .none [("Y", .str "y")],
   c2_raw_only.2.2 "c/y" .asset .work c2child c2orphan [] rfl⟩

def c6lit : FolderTemplate := .mk "t" "/a" "" (parseTokens "/a") [] none .none

/-- C6 counterexample: a variable-free template fully matches the path,
but `_analyze_path` treats the empty capture dict as falsy and skips the
slot, returning unresolved instead of the matching slot. -/
theorem c6_counterexample :
    matchTemplate "/a" c6lit.rawTemplate = .ok (some []) ∧
    analyzePath "/a" { assetPublishedPath := some c6lit } = .ok none :=
  ⟨rfl, rfl⟩

/-- One analysis candidate viewed declaratively: a populated slot whose
pattern fully matches with at least one captured variable. -/
def goodMatch (path : String)
    (c : EntityType × DataType × Option FolderTemplate) :
    Option (EntityType × DataType × List (String × String)) :=
  match c with
  | (_, _, none) => none
  | (e, d, some t) =>
    match matchChunks (templateToRegex t.rawTemplate) path.data with
    | none => none
    | some caps => if caps.isEmpty then none else some (e, d, caps)

/-- The first candidate, in list order, that matches with captures. -/
def firstGoodMatch (path : String)
    (cands : List (EntityType × DataType × Option FolderTemplate)) :
    Option (EntityType × DataType × List (String × String)) :=
  cands.findSome? (goodMatch path)

/-- C6 (amended): over the fixed candidate order (the four core slots,
then render, cache, published-cache and deliverable variants),
`_analyze_path` returns the first populated slot whose pattern fully
matches the path *and captures at least one variable*; when no tried
template repeats a variable name it never raises, and the absence of
such a match yields `none`. -/
theorem c6_analyze_order (path : String) (m : StudioMapping)
    (hnd : ∀ e d t, (e, d, some t) ∈ analyzeCandidates m →
      (groupNames (templateToRegex t.rawTemplate)).Nodup) :
    analyzePath path m = .ok (firstGoodMatch path (analyzeCandidates m)) := by
  have main : ∀ cands : List (EntityType × DataType × Option FolderTemplate),
      (∀ e d t, (e, d, some t) ∈ cands →
        (groupNames (templateToRegex t.rawTemplate)).Nodup) →
      analyzeLoop path cands = .ok (firstGoodMatch path cands) := by
    intro cands
    induction cands with
    | nil => intro _; rfl
    | cons c rest ih =>
      intro hc
      obtain ⟨e, d, ot⟩ := c
      have hrest : ∀ e d t, (e, d, some t) ∈ rest →
          (groupNames (templateToRegex t.rawTemplate)).Nodup := by
        intro e' d' t' hmem
        exact hc e' d' t' (List.mem_cons_of_mem _ hmem)
      cases ot with
      | none =>
        simp only [analyzeLoop, firstGoodMatch, List.findSome?_cons, goodMatch]
        exact ih hrest
      | some t =>
        have hok : matchTemplate path t.rawTemplate =
            .ok (matchChunks (templateToRegex t.rawTemplate) path.data) := by
          rw [matchTemplate]
          rw [if_pos (hc e d t (List.mem_cons_self _ _))]
        simp only [analyzeLoop, hok, firstGoodMatch, List.findSome?_cons, goodMatch]
        cases hm : matchChunks (templateToRegex t.rawTemplate) path.data with
        | none => exact ih hrest
        | some caps =>
          by_cases hemp : caps.isEmpty
          · simp only [hemp, if_true]
            exact ih hrest
          · simp [hemp]
  exact main (analyzeCandidates m) hnd

def c6aw : FolderTemplate :=
  .mk "aw" "/w/{A}" "" (parseTokens "/w/{A}") [{ name := "A" }] none .none

theorem c6_witness :
    analyzePath "/w/z" { assetWorkPath := some c6aw } =
      .ok (firstGoodMatch "/w/z"
        (analyzeCandidates { assetWorkPath := some c6aw })) := by
  apply c6_analyze_order
  intro e d t hmem
  simp [analyzeCandidates] at hmem
  obtain ⟨_, _, rfl⟩ := hmem
  decide

/-- C8 (confirmed): whenever some declared variable is required, has no
default and receives no binding, `format` fails with
`VariableResolutionError` naming such a variable (the first one in
declaration order) and the raw template, and no path is returned. -/
theorem c8_missing_required (reMatch : String → String → Bool)
    (t : FolderTemplate) (kwargs : List (String × PyValue))
    (h : ∃ v ∈ t.vars, v.required = true ∧
      lookupAssoc kwargs v.name = none ∧ v.defaultValue = none) :
    ∃ v ∈ t.vars, v.required = true ∧
      lookupAssoc kwargs v.name = none ∧ v.defaultValue = none ∧
      formatTemplate reMatch t kwargs =
        .error (.varResolution v.name t.rawTemplate) := by
  have hiff : ∀ v : TemplateVariable,
      (v.required && !(hasKey kwargs v.name) && v.defaultValue.isNone) = true ↔
      (v.required = true ∧ lookupAssoc kwargs v.name = none ∧
        v.defaultValue = none) := by
    intro v
    simp [hasKey, lookupAssoc, Bool.and_eq_true, Option.isNone_iff_eq_none,
      Option.isSome_iff_exists, and_assoc]
  obtain ⟨v0, hmem0, hv0⟩ := h
  have hsome : (t.vars.find? fun v =>
      v.required && !(hasKey kwargs v.name) && v.defaultValue.isNone).isSome := by
    rw [List.find?_isSome]
    exact ⟨v0, hmem0, (hiff v0).mpr hv0⟩
  obtain ⟨v, hfind⟩ := Option.isSome_iff_exists.mp hsome
  have hvp : (v.required && !(hasKey kwargs v.name) && v.defaultValue.isNone) = true := by
    have := List.find?_some hfind
    simpa using this
  obtain ⟨h1, h2, h3⟩ := (hiff v).mp hvp
  refine ⟨v, List.mem_of_find?_eq_some hfind, h1, h2, h3, ?_⟩
  simp only [formatTemplate, hfind]

def c8t : FolderTemplate :=
  .mk "aw" "/projects/{PROJECT}/assets/{ASSET_TYPE}" ""
    (parseTokens "/projects/{PROJECT}/assets/{ASSET_TYPE}")
    [{ name := "PROJECT" }, { name := "ASSET_TYPE" }] none .none

theorem c8_witness :
    ∃ v ∈ c8t.vars, v.required = true ∧
      lookupAssoc [("PROJECT", PyValue.str "p")] v.name = none ∧
      v.defaultValue = none ∧
      formatTemplate (fun _ _ => true) c8t [("PROJECT", PyValue.str "p")] =
        .error (.varResolution v.name c8t.rawTemplate) :=
  c8_missing_required (fun _ _ => true) c8t [("PROJECT", PyValue.str "p")]
    ⟨{ name := "ASSET_TYPE" }, by decide, rfl, rfl, rfl⟩

/-! ## Preservation lemmas for template mutation -/

theorem raw_setDescription (t : FolderTemplate) (d : String) :
    (t.setDescription d).rawTemplate = t.rawTemplate ∧
    (t.setDescription d).tokens = t.tokens := by
  cases t; exact ⟨rfl, rfl⟩

theorem raw_setVars (t : FolderTemplate) (vs : List TemplateVariable) :
    (t.setVars vs).rawTemplate = t.rawTemplate ∧
    (t.setVars vs).tokens = t.tokens := by
  cases t; exact ⟨rfl, rfl⟩

theorem raw_setParent (t : FolderTemplate) (p : Option FolderTemplate) :
    (t.setParent p).rawTemplate = t.rawTemplate ∧
    (t.setParent p).tokens = t.tokens := by
  cases t; exact ⟨rfl, rfl⟩

theorem raw_setMode (t : FolderTemplate) (m : TemplateInheritance) :
    (t.setMode m).rawTemplate = t.rawTemplate ∧
    (t.setMode m).tokens = t.tokens := by
  cases t; exact ⟨rfl, rfl⟩

theorem addVariable_ok {t : FolderTemplate} {v : TemplateVariable}
    {t' : FolderTemplate} (h : addVariable t v = .ok t') :
    t' = t.setVars (t.vars ++ [v]) := by
  unfold addVariable at h
  by_cases hc : hasVarNamed t v.name
  · rw [if_pos hc] at h; cases h
  · rw [if_neg hc] at h
    injection h with h'
    exact h'.symm

theorem addVarsPartial_raw (vs : List TemplateVariable) (t : FolderTemplate) :
    (addVarsPartial t vs).1.rawTemplate = t.rawTemplate ∧
    (addVarsPartial t vs).1.tokens = t.tokens := by
  induction vs generalizing t with
  | nil => exact ⟨rfl, rfl⟩
  | cons v vs ih =>
    unfold addVarsPartial
    cases hadd : addVariable t v with
    | ok t' =>
      have := addVariable_ok hadd
      subst this
      obtain ⟨h1, h2⟩ := ih (t.setVars (t.vars ++ [v]))
      rw [h1, h2]
      exact ⟨(raw_setVars t _).1, (raw_setVars t _).2⟩
    | error e => exact ⟨rfl, rfl⟩

theorem addVarsPartial_err (vs : List TemplateVariable) (t : FolderTemplate)
    {t' : FolderTemplate} {e : DomError}
    (h : addVarsPartial t vs = (t', some e)) : ∃ i, e = .valueErr i := by
  induction vs generalizing t with
  | nil => unfold addVarsPartial at h; cases h
  | cons v vs ih =>
    unfold addVarsPartial at h
    cases hadd : addVariable t v with
    | ok tnext =>
      rw [hadd] at h
      exact ih tnext h
    | error e0 =>
      rw [hadd] at h
      unfold addVariable at hadd
      by_cases hc : hasVarNamed t v.name
      · rw [if_pos hc] at hadd
        injection hadd with h0
        injection h with _ h2
        injection h2 with h2'
        exact ⟨v.name, by rw [← h2', ← h0]⟩
      · rw [if_neg hc] at hadd; cases hadd

theorem autoAddPartial_raw (ns : List String) (t : FolderTemplate) :
    (autoAddPartial t ns).1.rawTemplate = t.rawTemplate ∧
    (autoAddPartial t ns).1.tokens = t.tokens := by
  induction ns generalizing t with
  | nil => exact ⟨rfl, rfl⟩
  | cons n ns ih =>
    unfold autoAddPartial
    by_cases hc : hasVarNamed t n
    · rw [if_pos hc]; exact ih t
    · rw [if_neg hc]
      cases hauto : autoVariable n with
      | ok v =>
        dsimp only
        cases hadd : addVariable t v with
        | ok t' =>
          dsimp only
          have := addVariable_ok hadd
          subst this
          obtain ⟨h1, h2⟩ := ih (t.setVars (t.vars ++ [v]))
          rw [h1, h2]
          exact ⟨(raw_setVars t _).1, (raw_setVars t _).2⟩
        | error e => exact ⟨rfl, rfl⟩
      | error e => exact ⟨rfl, rfl⟩

theorem autoAddPartial_err (ns : List String) (t : FolderTemplate)
    {t' : FolderTemplate} {e : DomError}
    (h : autoAddPartial t ns = (t', some e)) : ∃ i, e = .valueErr i := by
  induction ns generalizing t with
  | nil => unfold autoAddPartial at h; cases h
  | cons n ns ih =>
    unfold autoAddPartial at h
    by_cases hc : hasVarNamed t n
    · rw [if_pos hc] at h
      exact ih t h
    · rw [if_neg hc] at h
      cases hauto : autoVariable n with
      | ok v =>
        rw [hauto] at h
        dsimp only at h
        cases hadd : addVariable t v with
        | ok tnext =>
          rw [hadd] at h
          dsimp only at h
          exact ih tnext h
        | error e0 =>
          rw [hadd] at h
          dsimp only at h
          unfold addVariable at hadd
          by_cases hc2 : hasVarNamed t v.name
          · rw [if_pos hc2] at hadd
            injection hadd with h0
            injection h with _ h2
            injection h2 with h2'
            exact ⟨v.name, by rw [← h2', ← h0]⟩
          · rw [if_neg hc2] at hadd; cases hadd
      | error e0 =>
        rw [hauto] at h
        dsimp only at h
        unfold autoVariable at hauto
        by_cases hok : pyNameOk n
        · rw [if_pos hok] at hauto; cases hauto
        · rw [if_neg hok] at hauto
          injection hauto with h0
          injection h with _ h2
          injection h2 with h2'
          exact ⟨n, by rw [← h2', ← h0]⟩

theorem applyVarsStep_raw (t : FolderTemplate)
    (u : Option (List TemplateVariable)) :
    (applyVarsStep t u).1.rawTemplate = t.rawTemplate ∧
    (applyVarsStep t u).1.tokens = t.tokens := by
  cases u with
  | none => exact ⟨rfl, rfl⟩
  | some vs =>
    unfold applyVarsStep
    dsimp only
    cases hp : addVarsPartial (t.setVars []) vs with
    | mk tp eopt =>
      have hpre : tp.rawTemplate = t.rawTemplate ∧ tp.tokens = t.tokens := by
        have := addVarsPartial_raw vs (t.setVars [])
        rw [hp] at this
        obtain ⟨h1, h2⟩ := this
        exact ⟨h1.trans (raw_setVars t []).1, h2.trans (raw_setVars t []).2⟩
      cases eopt with
      | some e => exact hpre
      | none =>
        have haut := autoAddPartial_raw (varTokenNames tp.tokens) tp
        exact ⟨haut.1.trans hpre.1, haut.2.trans hpre.2⟩


theorem applyVarsStep_err (t : FolderTemplate)
    (u : Option (List TemplateVariable)) {t' : FolderTemplate} {e : DomError}
    (h : applyVarsStep t u = (t', some e)) : ∃ i, e = .valueErr i := by
  cases u with
  | none => cases h
  | some vs =>
    unfold applyVarsStep at h
    dsimp only at h
    cases hp : addVarsPartial (t.setVars []) vs with
    | mk tp eopt =>
      rw [hp] at h
      cases eopt with
      | some e0 =>
        injection h with _ h2
        injection h2 with h2'
        subst h2'
        exact addVarsPartial_err vs (t.setVars []) hp
      | none =>
        exact autoAddPartial_err (varTokenNames tp.tokens) tp h

theorem applyParentStep_raw (templates : List (String × FolderTemplate))
    (t : FolderTemplate) (pn : Option String) :
    (applyParentStep templates t pn).1.rawTemplate = t.rawTemplate ∧
    (applyParentStep templates t pn).1.tokens = t.tokens := by
  cases pn with
  | none => exact ⟨rfl, rfl⟩
  | some p =>
    unfold applyParentStep
    dsimp only
    by_cases hp : (p == "") = true
    · rw [if_pos hp]
      exact ⟨(raw_setParent t none).1, (raw_setParent t none).2⟩
    · rw [if_neg hp]
      cases lookupAssoc templates p with
      | none => exact ⟨rfl, rfl⟩
      | some q =>
        exact ⟨(raw_setParent t (some q)).1, (raw_setParent t (some q)).2⟩

theorem applyParentStep_err (templates : List (String × FolderTemplate))
    (t : FolderTemplate) (pn : Option String) {t' : FolderTemplate}
    {e : DomError} (h : applyParentStep templates t pn = (t', some e)) :
    ∃ i, e = .keyErr i := by
  cases pn with
  | none => cases h
  | some p =>
    unfold applyParentStep at h
    dsimp only at h
    by_cases hp : (p == "") = true
    · rw [if_pos hp] at h; cases h
    · rw [if_neg hp] at h
      cases hl : lookupAssoc templates p with
      | none =>
        rw [hl] at h
        dsimp only at h
        injection h with _ h2
        injection h2 with h2'
        exact ⟨p, h2'.symm⟩
      | some q =>
        rw [hl] at h
        dsimp only at h
        cases h

theorem lookupAssoc_setTemplateEntry (l : List (String × FolderTemplate))
    (k : String) (t : FolderTemplate) {v : FolderTemplate}
    (h : lookupAssoc l k = some v) :
    lookupAssoc (setTemplateEntry l k t) k = some t := by
  induction l with
  | nil => simp [lookupAssoc] at h
  | cons p rest ih =>
    by_cases hk : (p.1 == k) = true
    · simp [lookupAssoc, setTemplateEntry, List.find?, hk]
    · have h' : lookupAssoc rest k = some v := by
        simpa [lookupAssoc, List.find?, hk] using h
      have := ih h'
      simpa [lookupAssoc, setTemplateEntry, List.find?, hk] using this

/-! ## Claim C5 -/

def c5group : TemplateGroup :=
  { templates := [("t", .mk "t" "{A}" "" (parseTokens "{A}")
      [{ name := "A" }] none .none)] }

/-- C5 counterexample: changing the raw string to reference a new
variable makes the post-mutation validation raise
`InvalidTemplateError`, yet the stored template keeps the *new* raw
string — its prior valid state is not restored. -/
theorem c5_counterexample :
    (updateTemplateOp c5group "t" (some "{B}") none none none none).2 =
      .error (.invalidTemplate "{B}" "B") ∧
    ((updateTemplateOp c5group "t" (some "{B}") none none none none).1.templates.map
        fun p => (p.1, p.2.rawTemplate)) = [("t", "{B}")] ∧
    "{B}" ≠ "{A}" :=
  ⟨rfl, rfl, by decide⟩

/-- C5 (amended): `update_template` applies the requested field updates
in place *before* validating; when validation raises
`InvalidTemplateError`, the stored template keeps the newly applied raw
string and reparsed tokens — there is no rollback to the prior state. -/
theorem c5_partial_write (g : TemplateGroup) (name s : String)
    (desc : Option String) (varsU : Option (List TemplateVariable))
    (pn : Option String) (md : Option TemplateInheritance)
    (tmpl reason : String)
    (herr : (updateTemplateOp g name (some s) desc varsU pn md).2 =
      .error (.invalidTemplate tmpl reason)) :
    ∃ t', lookupAssoc
        (updateTemplateOp g name (some s) desc varsU pn md).1.templates name =
          some t' ∧
      t'.rawTemplate = s ∧ t'.tokens = parseTokens s := by
  unfold updateTemplateOp at herr ⊢
  cases hlook : lookupAssoc g.templates name with
  | none =>
    rw [hlook] at herr
    simp at herr
  | some t =>
    rw [hlook] at herr
    dsimp only at herr ⊢
    have hraw2 : (applyDescStep (applyRawStep t (some s)) desc).rawTemplate = s ∧
        (applyDescStep (applyRawStep t (some s)) desc).tokens = parseTokens s := by
      have h1 := raw_setDescription (applyRawStep t (some s))
      cases desc with
      | none =>
        simp only [applyDescStep]
        cases t
        exact ⟨rfl, rfl⟩
      | some d =>
        obtain ⟨ha, hb⟩ := raw_setDescription (applyRawStep t (some s)) d
        refine ⟨ha.trans ?_, hb.trans ?_⟩ <;> (cases t; rfl)
    cases hv : applyVarsStep (applyDescStep (applyRawStep t (some s)) desc) varsU with
    | mk t3 e3 =>
      rw [hv] at herr
      cases e3 with
      | some e =>
        dsimp only at herr
        obtain ⟨i, hi⟩ := applyVarsStep_err _ _ hv
        subst hi
        simp at herr
      | none =>
        dsimp only at herr ⊢
        have hraw3 : t3.rawTemplate = s ∧ t3.tokens = parseTokens s := by
          have hstep := applyVarsStep_raw (applyDescStep (applyRawStep t (some s)) desc) varsU
          rw [hv] at hstep
          exact ⟨hstep.1.trans hraw2.1, hstep.2.trans hraw2.2⟩
        cases hpar : applyParentStep (setTemplateEntry g.templates name t3) t3 pn with
        | mk t4 e4 =>
          rw [hpar] at herr
          cases e4 with
          | some e =>
            dsimp only at herr
            obtain ⟨i, hi⟩ := applyParentStep_err _ _ _ hpar
            subst hi
            simp at herr
          | none =>
            dsimp only at herr ⊢
            have hraw4 : t4.rawTemplate = s ∧ t4.tokens = parseTokens s := by
              have hstep := applyParentStep_raw (setTemplateEntry g.templates name t3) t3 pn
              rw [hpar] at hstep
              exact ⟨hstep.1.trans hraw3.1, hstep.2.trans hraw3.2⟩
            have hraw5 : (applyModeStep t4 md).rawTemplate = s ∧
                (applyModeStep t4 md).tokens = parseTokens s := by
              cases md with
              | none => exact hraw4
              | some m =>
                obtain ⟨ha, hb⟩ := raw_setMode t4 m
                exact ⟨ha.trans hraw4.1, hb.trans hraw4.2⟩
            cases hval : validateTemplate (applyModeStep t4 md) with
            | ok b =>
              rw [hval] at herr
              dsimp only at herr
              simp at herr
            | error e =>
              rw [hval] at herr
              dsimp only at herr ⊢
              exact ⟨applyModeStep t4 md,
                lookupAssoc_setTemplateEntry g.templates name _ hlook,
                hraw5.1, hraw5.2⟩

theorem c5_witness :
    ∃ t', lookupAssoc
        (updateTemplateOp c5group "t" (some "{B}") none none none none).1.templates
          "t" = some t' ∧
      t'.rawTemplate = "{B}" ∧ t'.tokens = parseTokens "{B}" :=
  c5_partial_write c5group "t" "{B}" none none none none "{B}" "B" rfl

/-! ## Claim C10 -/

theorem vars_setVars (t : FolderTemplate) (vs : List TemplateVariable) :
    (t.setVars vs).vars = vs := by
  cases t; rfl

theorem hasVarNamed_addVariable {t : FolderTemplate} {v : TemplateVariable}
    {t' : FolderTemplate} (h : addVariable t v = .ok t') :
    t'.tokens = t.tokens ∧
    ∀ m, hasVarNamed t' m = (hasVarNamed t m || (v.name == m)) := by
  have heq := addVariable_ok h
  subst heq
  refine ⟨(raw_setVars t _).2, ?_⟩
  intro m
  simp [hasVarNamed, vars_setVars, List.any_append]

theorem addProvidedVars_ok :
    ∀ (vs : List TemplateVariable) (t t' : FolderTemplate),
      addProvidedVars t vs = .ok t' →
      t'.tokens = t.tokens ∧
      (∀ m, hasVarNamed t m = true → hasVarNamed t' m = true) := by
  intro vs
  induction vs with
  | nil =>
    intro t t' h
    injection h with h'
    subst h'
    exact ⟨rfl, fun _ hm => hm⟩
  | cons v vs ih =>
    intro t t' h
    unfold addProvidedVars at h
    cases hadd : addVariable t v with
    | ok tnext =>
      rw [hadd] at h
      obtain ⟨h1, h2⟩ := ih tnext t' h
      obtain ⟨h3, h4⟩ := hasVarNamed_addVariable hadd
      refine ⟨h1.trans h3, ?_⟩
      intro m hm
      exact h2 m (by rw [h4]; simp [hm])
    | error e =>
      rw [hadd] at h
      cases h

theorem autoVariable_ok {n : String} {v : TemplateVariable}
    (h : autoVariable n = .ok v) : v.name = n := by
  unfold autoVariable at h
  by_cases hc : pyNameOk n
  · rw [if_pos hc] at h
    injection h with h'
    rw [← h']
  · rw [if_neg hc] at h
    cases h

theorem addAutoVars_ok :
    ∀ (ns : List String) (t t' : FolderTemplate),
      addAutoVars t ns = .ok t' →
      t'.tokens = t.tokens ∧
      (∀ m, hasVarNamed t m = true → hasVarNamed t' m = true) ∧
      (∀ n ∈ ns, hasVarNamed t' n = true) := by
  intro ns
  induction ns with
  | nil =>
    intro t t' h
    injection h with h'
    subst h'
    exact ⟨rfl, fun _ hm => hm, by simp⟩
  | cons n ns ih =>
    intro t t' h
    unfold addAutoVars at h
    by_cases hc : hasVarNamed t n
    · rw [if_pos hc] at h
      obtain ⟨h1, h2, h3⟩ := ih t t' h
      refine ⟨h1, h2, ?_⟩
      intro x hx
      rcases List.mem_cons.mp hx with hx | hx
      · rw [hx]
        exact h2 n hc
      · exact h3 x hx
    · rw [if_neg hc] at h
      cases hauto : autoVariable n with
      | ok v =>
        rw [hauto] at h
        dsimp only at h
        cases hadd : addVariable t v with
        | ok tnext =>
          rw [hadd] at h
          dsimp only at h
          obtain ⟨h1, h2, h3⟩ := ih tnext t' h
          obtain ⟨h4, h5⟩ := hasVarNamed_addVariable hadd
          have hvn := autoVariable_ok hauto
          refine ⟨h1.trans h4, ?_, ?_⟩
          · intro m hm
            exact h2 m (by rw [h5]; simp [hm])
          · intro x hx
            rcases List.mem_cons.mp hx with hx | hx
            · rw [hx]
              exact h2 n (by rw [h5, hvn]; simp)
            · exact h3 x hx
        | error e =>
          rw [hadd] at h
          dsimp only at h
          cases h
      | error e =>
        rw [hauto] at h
        dsimp only at h
        cases h

theorem mem_varTokenNames_iff (toks : List PathToken) (n : String) :
    n ∈ varTokenNames toks ↔ containsVariable toks n = true := by
  induction toks with
  | nil => simp [varTokenNames, containsVariable]
  | cons tk rest ih =>
    cases tk with
    | lit s =>
      simpa [varTokenNames, containsVariable] using ih
    | var m =>
      simp [varTokenNames, containsVariable] at ih ⊢
      rw [ih]
      constructor
      · rintro (h | h)
        · subst h; left; rfl
        · right; exact h
      · rintro (h | h)
        · left; exact h.symm
        · right; exact h

theorem mem_referencedNames_iff (toks : List PathToken) (n : String) :
    n ∈ referencedNames toks ↔ containsVariable toks n = true := by
  rw [← mem_varTokenNames_iff]
  simp [referencedNames, varTokenNames, List.mem_dedup]

/-- The auto-declaration invariant: every variable name referenced by
the parsed tokens has a declared variable. -/
def tokensDeclared (t : FolderTemplate) : Bool :=
  (referencedNames t.tokens).all fun n => hasVarNamed t n

theorem hasVarNamed_updateVariable {t : FolderTemplate}
    {v : TemplateVariable} {t' : FolderTemplate}
    (h : updateVariable t v = .ok t') :
    t'.tokens = t.tokens ∧ ∀ m, hasVarNamed t' m = hasVarNamed t m := by
  unfold updateVariable at h
  by_cases hc : hasVarNamed t v.name
  · rw [if_neg (by simp [hc])] at h
    injection h with h'
    subst h'
    refine ⟨(raw_setVars t _).2, ?_⟩
    intro m
    have hfun : ∀ w : TemplateVariable,
        ((if w.name == v.name then v else w).name == m) = (w.name == m) := by
      intro w
      by_cases hw : (w.name == v.name) = true
      · rw [if_pos hw, show w.name = v.name from beq_iff_eq.mp hw]
      · rw [if_neg hw]
    simp only [hasVarNamed, vars_setVars, List.any_map, Function.comp]
    exact congrArg _ (funext hfun)
  · rw [if_pos (by simp [hc])] at h
    cases h

theorem removeVariable_ok {t : FolderTemplate} {n : String}
    {t' : FolderTemplate} (h : removeVariable t n = .ok t') :
    t'.tokens = t.tokens ∧ containsVariable t.tokens n = false ∧
    (∀ m, m ≠ n → hasVarNamed t m = true → hasVarNamed t' m = true) := by
  unfold removeVariable at h
  by_cases hc : hasVarNamed t n
  · rw [if_neg (by simp [hc])] at h
    by_cases hcon : containsVariable t.tokens n
    · rw [if_pos hcon] at h
      cases h
    · rw [if_neg hcon] at h
      injection h with h'
      subst h'
      refine ⟨(raw_setVars t _).2, by simpa using hcon, ?_⟩
      intro m hm hvar
      simp only [hasVarNamed, vars_setVars, List.any_eq_true] at hvar ⊢
      obtain ⟨w, hw, hwm⟩ := hvar
      refine ⟨w, List.mem_filter.mpr ⟨hw, ?_⟩, hwm⟩
      have : w.name = m := beq_iff_eq.mp hwm
      simp [this, hm]
  · rw [if_pos (by simp [hc])] at h
    cases h

/-- C10 (confirmed): the constructor auto-declares every referenced
variable; add_variable, update_variable and remove_variable preserve
the referenced-variables-declared invariant (remove_variable refuses to
remove a name still referenced); and validate() succeeds on any
template satisfying the invariant — hence on any template reachable
through these operations alone. -/
theorem c10_declared_invariant :
    (∀ (name template description : String) (pv : List TemplateVariable)
       (parent : Option FolderTemplate) (mode : TemplateInheritance)
       (t : FolderTemplate),
      mkFolderTemplate name template description pv parent mode = .ok t →
      tokensDeclared t = true) ∧
    (∀ (t : FolderTemplate) (v : TemplateVariable) (t' : FolderTemplate),
      tokensDeclared t = true → addVariable t v = .ok t' →
      tokensDeclared t' = true) ∧
    (∀ (t : FolderTemplate) (v : TemplateVariable) (t' : FolderTemplate),
      tokensDeclared t = true → updateVariable t v = .ok t' →
      tokensDeclared t' = true) ∧
    (∀ (t : FolderTemplate) (n : String),
      containsVariable t.tokens n = true →
      ∀ t', removeVariable t n ≠ .ok t') ∧
    (∀ (t : FolderTemplate) (n : String) (t' : FolderTemplate),
      tokensDeclared t = true → removeVariable t n = .ok t' →
      tokensDeclared t' = true) ∧
    (∀ t : FolderTemplate, tokensDeclared t = true →
      validateTemplate t = .ok true) := by
  have hdecl : ∀ t : FolderTemplate, tokensDeclared t = true ↔
      (∀ n, containsVariable t.tokens n = true → hasVarNamed t n = true) := by
    intro t
    simp only [tokensDeclared, List.all_eq_true]
    constructor
    · intro h n hcon
      exact h n ((mem_referencedNames_iff _ _).mpr hcon)
    · intro h n hmem
      exact h n ((mem_referencedNames_iff _ _).mp hmem)
  refine ⟨?_, ?_, ?_, ?_, ?_, ?_⟩
  · intro name template description pv parent mode t h
    unfold mkFolderTemplate at h
    cases hprov : addProvidedVars
        (.mk name template description (parseTokens template) [] parent mode) pv with
    | error e =>
      rw [hprov] at h
      cases h
    | ok t1 =>
      rw [hprov] at h
      obtain ⟨ht1, _⟩ := addProvidedVars_ok _ _ _ hprov
      obtain ⟨ht2, _, h3⟩ := addAutoVars_ok _ _ _ h
      rw [hdecl]
      intro n hcon
      apply h3
      rw [ht2, ht1] at hcon
      exact (mem_varTokenNames_iff _ _).mpr hcon
  · intro t v t' ht hadd
    obtain ⟨h1, h2⟩ := hasVarNamed_addVariable hadd
    rw [hdecl] at ht ⊢
    intro n hcon
    rw [h1] at hcon
    rw [h2]
    simp [ht n hcon]
  · intro t v t' ht hupd
    obtain ⟨h1, h2⟩ := hasVarNamed_updateVariable hupd
    rw [hdecl] at ht ⊢
    intro n hcon
    rw [h1] at hcon
    rw [h2]
    exact ht n hcon
  · intro t n hcon t' h
    unfold removeVariable at h
    by_cases hc : hasVarNamed t n
    · rw [if_neg (by simp [hc]), if_pos hcon] at h
      cases h
    · rw [if_pos (by simp [hc])] at h
      cases h
  · intro t n t' ht hrem
    obtain ⟨h1, h2, h3⟩ := removeVariable_ok hrem
    rw [hdecl] at ht ⊢
    intro m hcon
    rw [h1] at hcon
    have hmn : m ≠ n := by
      intro hmn
      subst hmn
      rw [hcon] at h2
      cases h2
    exact h3 m hmn (ht m hcon)
  · intro t ht
    unfold validateTemplate
    have hnone : (referencedNames t.tokens).find?
        (fun n => !hasVarNamed t n) = none := by
      rw [List.find?_eq_none]
      intro n hn
      rw [hdecl] at ht
      simp [ht n ((mem_referencedNames_iff _ _).mp hn)]
    rw [hnone]

def c10res : FolderTemplate :=
  .mk "n" "{A}/x" "" (parseTokens "{A}/x") [{ name := "A" }] none .none

theorem c10_witness :
    mkFolderTemplate "n" "{A}/x" "" [] none .none = .ok c10res ∧
    tokensDeclared c10res = true ∧
    validateTemplate c10res = .ok true :=
  ⟨rfl,
   c10_declared_invariant.1 "n" "{A}/x" "" [] none .none c10res rfl,
   c10_declared_invariant.2.2.2.2.2 c10res (by decide)⟩


/-! ## Claim C1: matcher correctness on rendered output

`SepToks` captures the separation discipline under which greedy
matching recovers the rendered values exactly: a variable is either the
last token, followed only by a final literal, or followed by a literal
containing a separator before the next variable. -/

inductive SepToks : List PathToken → Prop where
  | nil : SepToks []
  | lit (s : String) (rest : List PathToken) :
      SepToks rest → SepToks (.lit s :: rest)
  | varNil (n : String) : SepToks [.var n]
  | varLit (n s : String) : SepToks [.var n, .lit s]
  | varSlash (n s : String) (rest : List PathToken) :
      '/' ∈ s.data → SepToks (.lit s :: rest) →
      SepToks (.var n :: .lit s :: rest)

/-- Forward rendering of a token list under an assignment of display
strings to variable names (what `format` produces, token-wise). -/
def renderToks (vals : String → String) : List PathToken → List Char
  | [] => []
  | .lit s :: rest => s.data ++ renderToks vals rest
  | .var n :: rest => (vals n).data ++ renderToks vals rest

/-- The capture dict the round trip is expected to recover. -/
def capsOf (vals : String → String) : List PathToken → List (String × String)
  | [] => []
  | .lit _ :: rest => capsOf vals rest
  | .var n :: rest => (n, vals n) :: capsOf vals rest

theorem matchChunks_nil_eq (cs : List Char) :
    matchChunks [] cs = if cs.isEmpty then some [] else none := rfl

theorem matchChunks_lit_eq (s : String) (rest : List RegexChunk) (cs : List Char) :
    matchChunks (.lit s :: rest) cs =
      if s.data.isPrefixOf cs then matchChunks rest (cs.drop s.data.length)
      else none := rfl

theorem matchChunks_group_eq (n : String) (rest : List RegexChunk) (cs : List Char) :
    matchChunks (.group n :: rest) cs =
      (List.iota (maxNonSep cs)).findSome? fun k =>
        (matchChunks rest (cs.drop k)).map fun caps =>
          (n, String.mk (cs.take k)) :: caps := rfl

theorem maxNonSep_append_nonsep (val tail : List Char)
    (h : ∀ c ∈ val, c ≠ '/') :
    maxNonSep (val ++ tail) = val.length + maxNonSep tail := by
  induction val with
  | nil => simp
  | cons c cs ih =>
    have hc : (c != '/') = true := by
      simpa using h c (List.mem_cons_self _ _)
    simp only [List.cons_append, maxNonSep, List.takeWhile_cons, hc]
    have := ih fun x hx => h x (List.mem_cons_of_mem _ hx)
    simp only [maxNonSep] at this
    simp [this]
    omega

theorem maxNonSep_eq_length (cs : List Char) (h : ∀ c ∈ cs, c ≠ '/') :
    maxNonSep cs = cs.length := by
  have := maxNonSep_append_nonsep cs [] h
  simpa using this

theorem maxNonSep_append_slash (s1 z : List Char) (h : ∀ c ∈ s1, c ≠ '/') :
    maxNonSep (s1 ++ '/' :: z) = s1.length := by
  rw [maxNonSep_append_nonsep s1 _ h]
  have : maxNonSep ('/' :: z) = 0 := by
    simp [maxNonSep, List.takeWhile_cons]
  omega

theorem exists_first_slash {l : List Char} (h : '/' ∈ l) :
    ∃ s1 s2, l = s1 ++ '/' :: s2 ∧ ∀ c ∈ s1, c ≠ '/' := by
  induction l with
  | nil => cases h
  | cons c cs ih =>
    by_cases hc : c = '/'
    · subst hc
      exact ⟨[], cs, rfl, by simp⟩
    · have : '/' ∈ cs := by
        rcases List.mem_cons.mp h with h | h
        · exact absurd h.symm hc
        · exact h
      obtain ⟨s1, s2, hsplit, hs1⟩ := ih this
      refine ⟨c :: s1, s2, by rw [hsplit]; rfl, ?_⟩
      intro x hx
      rcases List.mem_cons.mp hx with hx | hx
      · subst hx; exact hc
      · exact hs1 x hx

/-- The greedy search over candidate lengths, longest first: if every
length above the base fails and the base succeeds, the base's result is
returned. -/
theorem findSome_greedy {α : Type} (f : Nat → Option α) (base : Nat) (r : α)
    (hbase : 1 ≤ base) (hsucc : f base = some r) :
    ∀ extra : Nat, (∀ j, 1 ≤ j → j ≤ extra → f (base + j) = none) →
    (List.iota (base + extra)).findSome? f = some r := by
  intro extra
  induction extra with
  | zero =>
    intro _
    obtain ⟨b, rfl⟩ : ∃ b, base = b + 1 :=
      ⟨base - 1, by omega⟩
    simp [List.iota, List.findSome?_cons, hsucc]
  | succ k ih =>
    intro hfail
    have hstep : f ((base + k).succ) = none := by
      have he : (base + k).succ = base + (k + 1) := by omega
      rw [he]
      exact hfail (k + 1) (by omega) (by omega)
    have he2 : base + (k + 1) = (base + k) + 1 := by omega
    rw [he2]
    simp only [List.iota, List.findSome?_cons]
    rw [hstep]
    exact ih fun j h1 h2 => hfail j h1 (by omega)

theorem isPrefixOf_append_self (l tail : List Char) :
    l.isPrefixOf (l ++ tail) = true := by
  rw [List.isPrefixOf_iff_prefix]
  exact List.prefix_append l tail

theorem isPrefixOf_drop_false (l : List Char) {j : Nat} (h1 : 1 ≤ j)
    (hne : l ≠ []) : l.isPrefixOf (l.drop j) = false := by
  by_cases hp : l.isPrefixOf (l.drop j) = true
  · exfalso
    rw [List.isPrefixOf_iff_prefix] at hp
    have hlen := hp.length_le
    rw [List.length_drop] at hlen
    have : 0 < l.length := List.length_pos.mpr hne
    omega
  · exact Bool.eq_false_iff.mpr hp

theorem isPrefixOf_self (l : List Char) : l.isPrefixOf l = true := by
  rw [List.isPrefixOf_iff_prefix]

theorem first_slash_prefix_fail {s1 s2 z : List Char}
    (hs1 : ∀ c ∈ s1, c ≠ '/') {j : Nat} (hj1 : 1 ≤ j) (hj2 : j ≤ s1.length) :
    (s1 ++ '/' :: s2).isPrefixOf (s1.drop j ++ '/' :: z) = false := by
  by_cases hp : (s1 ++ '/' :: s2).isPrefixOf (s1.drop j ++ '/' :: z) = true
  · exfalso
    rw [List.isPrefixOf_iff_prefix] at hp
    have hlt : s1.length - j < s1.length := by omega
    have hidx1 : s1.length - j < (s1 ++ '/' :: s2).length := by simp; omega
    have hge := hp.getElem hidx1
    rw [List.getElem_append_left hlt] at hge
    have hdlen : (s1.drop j).length ≤ s1.length - j := by
      simp [List.length_drop]
    rw [List.getElem_append_right hdlen] at hge
    exact hs1 _ (List.getElem_mem hlt) (by rw [hge]; simp [List.length_drop])
  · exact Bool.eq_false_iff.mpr hp

theorem capsOf_ne_nil {vals : String → String} {toks : List PathToken}
    {n : String} (h : PathToken.var n ∈ toks) : capsOf vals toks ≠ [] := by
  induction toks with
  | nil => cases h
  | cons tk rest ih =>
    cases tk with
    | lit s =>
      rcases List.mem_cons.mp h with h | h
      · cases h
      · simpa [capsOf] using ih h
    | var m => simp [capsOf]

/-- Greedy matching of the synthesized chunks against the rendered
string recovers exactly the rendered values: each named group captures
the value that was substituted for it. -/
theorem matchChunks_render (vals : String → String) :
    ∀ toks : List PathToken, SepToks toks →
    (∀ n, PathToken.var n ∈ toks →
      (vals n).data ≠ [] ∧ ∀ c ∈ (vals n).data, c ≠ '/') →
    matchChunks (toks.map chunkOfToken) (renderToks vals toks) =
      some (capsOf vals toks) := by
  intro toks hsep
  induction hsep with
  | nil => intro _; rfl
  | lit s rest hrest ih =>
    intro hvals
    have ih' := ih fun n hn => hvals n (List.mem_cons_of_mem _ hn)
    simp only [List.map_cons, chunkOfToken, renderToks]
    rw [matchChunks_lit_eq, isPrefixOf_append_self]
    simp only [if_true]
    rw [show (s.data ++ renderToks vals rest).drop s.data.length =
        renderToks vals rest from List.drop_left _ _]
    simpa [capsOf] using ih'
  | varNil n =>
    intro hvals
    obtain ⟨hne, hslash⟩ := hvals n (by simp)
    have hbase : 1 ≤ (vals n).data.length := List.length_pos.mpr hne
    simp only [List.map_cons, List.map_nil, chunkOfToken, renderToks,
      List.append_nil]
    rw [matchChunks_group_eq, maxNonSep_eq_length _ hslash]
    refine findSome_greedy _ _ _ hbase ?_ 0 (fun j h1 h2 => by omega)
    try dsimp only
    rw [List.drop_length, List.take_length, matchChunks_nil_eq]
    simp [capsOf]
  | varLit n s =>
    intro hvals
    obtain ⟨hne, hslash⟩ := hvals n (by simp)
    have hbase : 1 ≤ (vals n).data.length := List.length_pos.mpr hne
    simp only [List.map_cons, List.map_nil, chunkOfToken, renderToks,
      List.append_nil]
    rw [matchChunks_group_eq, maxNonSep_append_nonsep _ _ hslash]
    refine findSome_greedy _ _ _ hbase ?_ (maxNonSep s.data) ?_
    · try dsimp only
      rw [List.drop_left, List.take_left, matchChunks_lit_eq, isPrefixOf_self]
      simp only [if_true]
      rw [List.drop_length, matchChunks_nil_eq]
      simp [capsOf]
    · intro j hj1 hj2
      have hsne : s.data ≠ [] := by
        intro hnil
        rw [hnil] at hj2
        simp [maxNonSep] at hj2
        omega
      try dsimp only
      rw [show ((vals n).data ++ s.data).drop ((vals n).data.length + j) =
          s.data.drop j from by
        rw [List.drop_append_eq_append_drop]
        simp]
      rw [matchChunks_lit_eq, isPrefixOf_drop_false s.data hj1 hsne]
      simp
  | varSlash n s rest hslash hrest ih =>
    intro hvals
    obtain ⟨hne, hnsl⟩ := hvals n (by simp)
    have ih' := ih fun m hm => hvals m (List.mem_cons_of_mem _ hm)
    obtain ⟨s1, s2, hsplit, hs1⟩ := exists_first_slash hslash
    have hbase : 1 ≤ (vals n).data.length := List.length_pos.mpr hne
    have hassoc : s.data ++ renderToks vals rest =
        s1 ++ '/' :: (s2 ++ renderToks vals rest) := by
      rw [hsplit]; simp
    simp only [List.map_cons, chunkOfToken, renderToks]
    rw [matchChunks_group_eq]
    rw [show maxNonSep ((vals n).data ++ (s.data ++ renderToks vals rest)) =
        (vals n).data.length + s1.length from by
      rw [hassoc, maxNonSep_append_nonsep _ _ hnsl,
        maxNonSep_append_slash _ _ hs1]]
    refine findSome_greedy _ _ _ hbase ?_ s1.length ?_
    · try dsimp only
      rw [List.drop_left, List.take_left]
      simp only [List.map_cons, chunkOfToken, renderToks, capsOf] at ih' ⊢
      rw [ih']
      rfl
    · intro j hj1 hj2
      try dsimp only
      rw [show ((vals n).data ++ (s.data ++ renderToks vals rest)).drop
          ((vals n).data.length + j) =
          (s.data ++ renderToks vals rest).drop j from by
        rw [List.drop_append_eq_append_drop]
        simp]
      have hdropj : (s.data ++ renderToks vals rest).drop j =
          s1.drop j ++ '/' :: (s2 ++ renderToks vals rest) := by
        rw [hassoc, List.drop_append_eq_append_drop]
        rw [show j - s1.length = 0 from by omega]
        simp
      rw [hdropj, matchChunks_lit_eq,
        show s.data = s1 ++ '/' :: s2 from hsplit,
        first_slash_prefix_fail hs1 hj1 hj2]
      simp


/-! ## Claim C1: the format side

`piecesOf` is the piece list `string.Formatter().parse` produces on a
template whose literal text is brace-free and whose placeholders carry
scanner-shaped names; `pyScan_tokens` proves the scan yields it. -/

def piecesOf : List PathToken → List FmtPiece
  | [] => []
  | .lit s :: rest => s.data.map FmtPiece.lit ++ piecesOf rest
  | .var n :: rest => .field n true :: piecesOf rest

/-- A literal token that contains no brace is scanned verbatim. -/
def braceFreeLit (s : String) : Bool :=
  s.data.all fun c => !(c == '{') && !(c == '}')

/-- A field name the format grammar reads back whole: nonempty with no
brace, colon or bang. -/
def fmtSafeName (n : String) : Bool :=
  !n.data.isEmpty && n.data.all fun c =>
    !(c == '{') && !(c == '}') && !(c == ':') && !(c == '!')

theorem nameChar_safe {c : Char} (h : isNameChar c = true) :
    (!(c == '{') && !(c == '}') && !(c == ':') && !(c == '!')) = true := by
  have h1 : (c == '{') = false := by
    rw [beq_eq_false_iff_ne]; intro heq; subst heq; exact absurd h (by decide)
  have h2 : (c == '}') = false := by
    rw [beq_eq_false_iff_ne]; intro heq; subst heq; exact absurd h (by decide)
  have h3 : (c == ':') = false := by
    rw [beq_eq_false_iff_ne]; intro heq; subst heq; exact absurd h (by decide)
  have h4 : (c == '!') = false := by
    rw [beq_eq_false_iff_ne]; intro heq; subst heq; exact absurd h (by decide)
  rw [h1, h2, h3, h4]
  rfl

theorem nameStart_nameChar {c : Char} (h : isNameStart c = true) :
    isNameChar c = true := by
  simp only [isNameStart, Bool.or_eq_true] at h
  rcases h with h | h <;> simp [isNameChar, h]

/-- Scanner-shaped placeholder names are format-safe. -/
theorem shaped_fmtSafe {n : String} {c : Char} {body : List Char}
    (hc : isNameStart c = true) (hbody : body.all isNameChar = true)
    (hn : n = String.mk (c :: body)) : fmtSafeName n = true := by
  subst hn
  simp only [fmtSafeName, Bool.and_eq_true, List.all_eq_true]
  refine ⟨by simp, ?_⟩
  intro x hx
  rcases List.mem_cons.mp hx with hx | hx
  · subst hx; simpa using nameChar_safe (nameStart_nameChar hc)
  · simpa using nameChar_safe (List.all_eq_true.mp hbody x hx)

theorem pyScanGo_none_other (c : Char) (cs : List Char)
    (h1 : (c == '{') = false) (h2 : (c == '}') = false) :
    pyScanGo none (c :: cs) = (pyScanGo none cs).map (FmtPiece.lit c :: ·) := by
  cases cs with
  | nil => simp [pyScanGo, h1, h2]
  | cons d cs2 => simp [pyScanGo, h1, h2]

theorem pyScanGo_field (rev : List Char) : ∀ body rest : List Char,
    (∀ c ∈ body, (c == '}') = false) →
    pyScanGo (some rev) (body ++ '}' :: rest) =
      (pyScanGo none rest).map
        (FmtPiece.field (fieldNamePart (rev.reverse ++ body))
          (fieldIsPlain (rev.reverse ++ body)) :: ·) := by
  intro body
  induction body generalizing rev with
  | nil =>
    intro rest _
    simp [pyScanGo]
  | cons c body' ih =>
    intro rest hb
    have hc : (c == '}') = false := hb c (List.mem_cons_self _ _)
    simp only [List.cons_append, pyScanGo, hc, Bool.false_eq_true, if_false,
      List.append_eq]
    rw [ih (c :: rev) rest fun x hx => hb x (List.mem_cons_of_mem _ hx)]
    simp

theorem pyScanGo_lits : ∀ s rest : List Char,
    (∀ c ∈ s, ((c == '{') = false) ∧ ((c == '}') = false)) →
    pyScanGo none (s ++ rest) =
      (pyScanGo none rest).map (fun ps => s.map FmtPiece.lit ++ ps) := by
  intro s
  induction s with
  | nil =>
    intro rest _
    cases h : pyScanGo none rest <;> simp [Except.map, h]
  | cons c s' ih =>
    intro rest hs
    obtain ⟨hco, hcc⟩ := hs c (List.mem_cons_self _ _)
    have ihr := ih rest fun x hx => hs x (List.mem_cons_of_mem _ hx)
    rw [List.cons_append, pyScanGo_none_other c _ hco hcc, ihr]
    cases h : pyScanGo none rest <;> simp [Except.map, h]

/-- On the surface text of a token list with brace-free literals and
format-safe placeholder names, the format scan succeeds and produces
exactly the literal characters and one plain field per placeholder. -/
theorem pyScan_tokens : ∀ toks : List PathToken,
    (∀ s, PathToken.lit s ∈ toks → braceFreeLit s = true) →
    (∀ n, PathToken.var n ∈ toks → fmtSafeName n = true) →
    pyScanGo none (tokensChars toks) = .ok (piecesOf toks) := by
  intro toks
  induction toks with
  | nil => intro _ _; rfl
  | cons tk rest ih =>
    intro hlit hvar
    have ihr := ih (fun s hs => hlit s (List.mem_cons_of_mem _ hs))
      (fun n hn => hvar n (List.mem_cons_of_mem _ hn))
    cases tk with
    | lit s =>
      have hbf := hlit s (List.mem_cons_self _ _)
      simp only [braceFreeLit, List.all_eq_true, Bool.and_eq_true] at hbf
      rw [tokensChars_cons]
      simp only [tokChars]
      rw [pyScanGo_lits s.data (tokensChars rest) fun c hc =>
        ⟨by simpa using (hbf c hc).1, by simpa using (hbf c hc).2⟩]
      rw [ihr]
      simp [Except.map, piecesOf]
    | var n =>
      have hsafe := hvar n (List.mem_cons_self _ _)
      simp only [fmtSafeName, Bool.and_eq_true, List.all_eq_true] at hsafe
      obtain ⟨hne, hall⟩ := hsafe
      match hdata : n.data with
      | [] => rw [hdata] at hne; simp at hne
      | d :: body =>
        rw [hdata] at hall
        have hd := hall d (List.mem_cons_self _ _)
        simp only [Bool.and_eq_true, Bool.not_eq_eq_eq_not, Bool.not_true] at hd
        obtain ⟨⟨⟨hdo, hdc⟩, _⟩, _⟩ := hd
        rw [tokensChars_cons]
        simp only [tokChars, hdata, List.cons_append, List.append_assoc,
          List.singleton_append, List.nil_append]
        rw [show pyScanGo none ('{' :: d :: (body ++ '}' :: tokensChars rest)) =
            pyScanGo (some [d]) (body ++ '}' :: tokensChars rest) from by
          simp [pyScanGo, hdo, hdc]]
        rw [pyScanGo_field [d] body (tokensChars rest) fun c hc => by
          have := hall c (List.mem_cons_of_mem _ hc)
          simp only [Bool.and_eq_true, Bool.not_eq_eq_eq_not, Bool.not_true] at this
          exact this.1.1.2]
        rw [ihr]
        have hnamepart : fieldNamePart ([d].reverse ++ body) = n := by
          simp only [List.reverse_singleton, List.singleton_append, fieldNamePart]
          rw [List.takeWhile_eq_self_iff.mpr]
          · rw [← hdata]
          · intro c hc
            have := hall c hc
            simp only [Bool.and_eq_true, Bool.not_eq_eq_eq_not, Bool.not_true] at this
            simp [this.1.2, this.2]
        have hplain : fieldIsPlain ([d].reverse ++ body) = true := by
          simp only [List.reverse_singleton, List.singleton_append, fieldIsPlain,
            List.all_eq_true]
          intro c hc
          have := hall c hc
          simp only [Bool.and_eq_true, Bool.not_eq_eq_eq_not, Bool.not_true] at this
          simp [this.1.2, this.2]
        rw [hnamepart, hplain]
        simp [Except.map, piecesOf]

theorem fieldNames_piecesOf : ∀ toks : List PathToken,
    fieldNames (piecesOf toks) = varTokenNames toks := by
  intro toks
  induction toks with
  | nil => rfl
  | cons tk rest ih =>
    cases tk with
    | lit s =>
      simp only [piecesOf, fieldNames, varTokenNames, List.filterMap_append,
        List.filterMap_map] at ih ⊢
      rw [show (List.filterMap ((fun p => match p with
          | FmtPiece.field n _ => some n | FmtPiece.lit _ => none) ∘ FmtPiece.lit)
          s.data) = [] from by
        induction s.data with
        | nil => rfl
        | cons c cs ihc => simpa [List.filterMap_cons, Function.comp] using ihc]
      simpa using ih
    | var n =>
      simp only [piecesOf, fieldNames, varTokenNames, List.filterMap_cons] at ih ⊢
      rw [ih]

theorem renderPieces_lits (args : List (String × PyValue)) :
    ∀ (s : List Char) (rest : List FmtPiece),
    renderPieces args (s.map FmtPiece.lit ++ rest) =
      (renderPieces args rest).map (fun cs => s ++ cs) := by
  intro s
  induction s with
  | nil =>
    intro rest
    cases h : renderPieces args rest <;> simp [Except.map, h]
  | cons c s' ih =>
    intro rest
    simp only [List.map_cons, List.cons_append, renderPieces, List.append_eq]
    rw [ih rest]
    cases h : renderPieces args rest <;> simp [Except.map, h]

/-- Substitution on the scanned pieces renders exactly the token-wise
rendering under the resolved display strings. -/
theorem renderPieces_tokens (args : List (String × PyValue))
    (vals : String → String) : ∀ toks : List PathToken,
    (∀ n, PathToken.var n ∈ toks →
      ∃ v, lookupAssoc args n = some v ∧ pyStr v = vals n) →
    renderPieces args (piecesOf toks) = .ok (renderToks vals toks) := by
  intro toks
  induction toks with
  | nil => intro _; rfl
  | cons tk rest ih =>
    intro hres
    have ihr := ih fun n hn => hres n (List.mem_cons_of_mem _ hn)
    cases tk with
    | lit s =>
      simp only [piecesOf]
      rw [renderPieces_lits args s.data (piecesOf rest), ihr]
      simp [Except.map, renderToks]
    | var n =>
      obtain ⟨v, hv, hvs⟩ := hres n (List.mem_cons_self _ _)
      simp only [piecesOf, renderPieces, if_true, hv]
      rw [ihr]
      simp [Except.map, renderToks, hvs]

/-- Per-variable resolution of `FolderTemplate.format`: the supplied
binding if present, else the declared default. -/
def resolveVar (kwargs : List (String × PyValue)) (v : TemplateVariable) :
    Option PyValue :=
  match lookupAssoc kwargs v.name with
  | some val => some val
  | none => v.defaultValue

theorem hasKey_eq_isSome {α : Type} (l : List (String × α)) (k : String) :
    hasKey l k = (lookupAssoc l k).isSome := by
  simp [hasKey, lookupAssoc]

theorem lookupAssoc_append_left {α : Type} {l1 : List (String × α)}
    (l2 : List (String × α)) {k : String} {v : α}
    (h : lookupAssoc l1 k = some v) : lookupAssoc (l1 ++ l2) k = some v := by
  induction l1 with
  | nil => simp [lookupAssoc] at h
  | cons p l ih =>
    simp only [lookupAssoc, List.cons_append, List.find?_cons] at h ⊢
    cases hpk : (p.1 == k) with
    | true => rw [hpk] at h; simpa using h
    | false =>
      rw [hpk] at h
      exact ih h

theorem lookupAssoc_cons {α : Type} (p : String × α) (l : List (String × α))
    (k : String) : lookupAssoc (p :: l) k =
      if p.1 == k then some p.2 else lookupAssoc l k := by
  simp only [lookupAssoc, List.find?_cons]
  cases hpk : (p.1 == k) <;> simp [hpk]

/-- `format_args` construction succeeds when every supplied binding for a
declared variable validates, and — under unique declared names — the
resulting dict resolves each name to the binding-or-default of its
declaration. -/
theorem buildFormatArgs_ok (reM : String → String → Bool)
    (kwargs : List (String × PyValue)) : ∀ vs : List TemplateVariable,
    (vs.map fun v => v.name).Nodup →
    (∀ v ∈ vs, (lookupAssoc kwargs v.name).all
      (fun val => validateValue reM v val) = true) →
    ∃ args0, buildFormatArgs reM vs kwargs = .ok args0 ∧
      ∀ n, lookupAssoc args0 n =
        (vs.find? fun v => v.name == n).bind (resolveVar kwargs) := by
  intro vs
  induction vs with
  | nil =>
    intro _ _
    exact ⟨[], rfl, fun n => rfl⟩
  | cons v vs' ih =>
    intro hnodup hvalid
    have hnd' : (vs'.map fun w => w.name).Nodup := by
      simpa using List.Nodup.of_cons hnodup
    have hnotin : ∀ w ∈ vs', (w.name == v.name) = false := by
      intro w hw
      rw [beq_eq_false_iff_ne]
      intro he
      have : v.name ∈ vs'.map fun w => w.name := by
        rw [← he]
        exact List.mem_map_of_mem _ hw
      exact (List.nodup_cons.mp (by simpa using hnodup)).1 this
    obtain ⟨args0', hargs', hchar'⟩ := ih hnd'
      (fun w hw => hvalid w (List.mem_cons_of_mem _ hw))
    have hvv := hvalid v (List.mem_cons_self _ _)
    have hlost : ∀ n, (v.name == n) = true → lookupAssoc args0' n = none := by
      intro n hn
      rw [hchar' n]
      rw [show vs'.find? (fun w => w.name == n) = none from
        List.find?_eq_none.mpr fun w hw => by
          have := hnotin w hw
          rw [beq_eq_false_iff_ne] at this
          simp only [Bool.not_eq_true, beq_eq_false_iff_ne]
          intro he
          exact this (he.trans (beq_iff_eq.mp hn).symm)]
      rfl
    cases hlk : lookupAssoc kwargs v.name with
    | some val =>
      rw [hlk] at hvv
      simp only [Option.all_some] at hvv
      refine ⟨(v.name, val) :: args0', ?_, ?_⟩
      · simp only [buildFormatArgs, hlk, hvv, if_true]
        rw [hargs']
        rfl
      · intro n
        rw [lookupAssoc_cons]
        simp only [List.find?_cons]
        cases hvn : (v.name == n) with
        | true =>
          simp only [if_pos rfl]
          simp only [Option.some_bind, resolveVar]
          rw [hlk]
          simp
        | false =>
          simp only [Bool.false_eq_true, if_false]
          exact hchar' n
    | none =>
      cases hdv : v.defaultValue with
      | some d =>
        refine ⟨(v.name, d) :: args0', ?_, ?_⟩
        · simp only [buildFormatArgs, hlk, hdv]
          rw [hargs']
          rfl
        · intro n
          rw [lookupAssoc_cons]
          simp only [List.find?_cons]
          cases hvn : (v.name == n) with
          | true =>
            simp only [if_pos rfl]
            simp only [Option.some_bind, resolveVar, hdv]
            rw [hlk]
            simp
          | false =>
            simp only [Bool.false_eq_true, if_false]
            exact hchar' n
      | none =>
        refine ⟨args0', ?_, ?_⟩
        · simp only [buildFormatArgs, hlk, hdv]
          exact hargs'
        · intro n
          simp only [List.find?_cons]
          cases hvn : (v.name == n) with
          | true =>
            simp only [if_pos rfl]
            rw [hlost n hvn]
            simp only [Option.some_bind, resolveVar, hdv]
            rw [hlk]
          | false =>
            simp only [Bool.false_eq_true, if_false]
            exact hchar' n


/-! ## Claim C1: assembly -/

theorem varToken_mem_names {toks : List PathToken} {n : String} :
    PathToken.var n ∈ toks ↔ n ∈ varTokenNames toks := by
  induction toks with
  | nil => simp [varTokenNames]
  | cons tk rest ih => cases tk <;> simp [varTokenNames, ih]

theorem capsOf_eq_map (vals : String → String) : ∀ toks : List PathToken,
    capsOf vals toks = (varTokenNames toks).map fun n => (n, vals n) := by
  intro toks
  induction toks with
  | nil => rfl
  | cons tk rest ih => cases tk <;> simp [capsOf, varTokenNames, ih]

theorem groupNames_map (toks : List PathToken) :
    groupNames (toks.map chunkOfToken) = varTokenNames toks := by
  induction toks with
  | nil => rfl
  | cons tk rest ih =>
    cases tk with
    | lit s =>
      show groupNames (RegexChunk.lit s :: rest.map chunkOfToken) = _
      simp only [groupNames, varTokenNames, List.filterMap_cons]
      exact ih
    | var n =>
      show groupNames (RegexChunk.group n :: rest.map chunkOfToken) = _
      simp only [groupNames, varTokenNames, List.filterMap_cons]
      exact congrArg _ ih

/-- A studio mapping with exactly one populated storage slot. -/
def singleSlot : MappingSlot → FolderTemplate → StudioMapping
  | .assetPublished, t => { assetPublishedPath := some t }
  | .assetWork, t => { assetWorkPath := some t }
  | .shotPublished, t => { shotPublishedPath := some t }
  | .shotWork, t => { shotWorkPath := some t }
  | .render, t => { renderPath := some t }
  | .cache, t => { cachePath := some t }
  | .assetPublishedCache, t => { assetPublishedCachePath := some t }
  | .shotPublishedCache, t => { shotPublishedCachePath := some t }
  | .deliverable, t => { deliverablePath := some t }

/-- The (entity, data) pair `_analyze_path` reports for the first match
on each slot (the shared slots are tried for `ASSET` first). -/
def slotEntity : MappingSlot → EntityType
  | .shotPublished | .shotWork | .shotPublishedCache => .shot
  | _ => .asset

def slotData : MappingSlot → DataType
  | .assetPublished | .shotPublished => .published
  | .assetWork | .shotWork => .work
  | .render => .render
  | .cache => .cache
  | .assetPublishedCache | .shotPublishedCache => .publishedCache
  | .deliverable => .deliverable

theorem analyzeLoop_single (path : String) (t : FolderTemplate)
    (sl : MappingSlot) {caps : List (String × String)}
    (hm : matchTemplate path t.rawTemplate = .ok (some caps))
    (hne : caps ≠ []) :
    analyzePath path (singleSlot sl t) =
      .ok (some (slotEntity sl, slotData sl, caps)) := by
  have hie : caps.isEmpty = false := by
    cases caps with
    | nil => exact absurd rfl hne
    | cons a l => rfl
  cases sl <;>
    simp [analyzePath, analyzeCandidates, singleSlot, analyzeLoop, hm, hie,
      slotEntity, slotData]

/-- `FolderTemplate.format` succeeds and renders the template token-wise
under the resolved display strings, provided: declared names are unique,
literal text is brace-free, no declared variable is required-unbound-
defaultless, every supplied binding for a declared variable validates,
and every referenced name resolves (binding or default) to the display
string `vals` gives it. -/
theorem formatTemplate_render (reM : String → String → Bool)
    (t : FolderTemplate) (kwargs : List (String × PyValue))
    (vals : String → String)
    (hvnodup : (t.vars.map fun v => v.name).Nodup)
    (hlit : ∀ s, PathToken.lit s ∈ parseTokens t.rawTemplate →
      braceFreeLit s = true)
    (hpre : ∀ v ∈ t.vars,
      (v.required && !(hasKey kwargs v.name) && v.defaultValue.isNone) = false)
    (hvalid : ∀ v ∈ t.vars, (lookupAssoc kwargs v.name).all
      (fun val => validateValue reM v val) = true)
    (hres : ∀ n ∈ varTokenNames (parseTokens t.rawTemplate),
      ((t.vars.find? fun w => w.name == n).bind (resolveVar kwargs)).map pyStr
        = some (vals n)) :
    formatTemplate reM t kwargs =
      .ok (String.mk (renderToks vals (parseTokens t.rawTemplate))) := by
  have hvarSafe : ∀ n, PathToken.var n ∈ parseTokens t.rawTemplate →
      fmtSafeName n = true := by
    intro n hn
    rw [parseTokens_eq_scan] at hn
    obtain ⟨c, body, hc, hb, hn'⟩ := scanTemplate_var_names hn
    exact shaped_fmtSafe hc hb hn'
  have hchars : tokensChars (parseTokens t.rawTemplate) = t.rawTemplate.data := by
    rw [parseTokens_eq_scan]
    simpa using tokensChars_scanTemplate [] t.rawTemplate.data
  have hscan : pyScan t.rawTemplate.data = .ok (piecesOf (parseTokens t.rawTemplate)) := by
    show pyScanGo none t.rawTemplate.data = _
    rw [← hchars]
    exact pyScan_tokens _ hlit hvarSafe
  obtain ⟨args0, hargs, hchar⟩ := buildFormatArgs_ok reM kwargs t.vars hvnodup hvalid
  have hfind : t.vars.find? (fun v =>
      v.required && !(hasKey kwargs v.name) && v.defaultValue.isNone) = none :=
    List.find?_eq_none.mpr fun v hv => by rw [hpre v hv]; simp
  have hlookupArgs : ∀ n ∈ varTokenNames (parseTokens t.rawTemplate),
      ∃ pv, lookupAssoc (args0 ++ kwargs.filter fun kv => !hasKey args0 kv.1) n
          = some pv ∧ pyStr pv = vals n := by
    intro n hn
    obtain ⟨pv, hpv, hps⟩ := Option.map_eq_some'.mp (hres n hn)
    refine ⟨pv, ?_, hps⟩
    apply lookupAssoc_append_left
    rw [hchar n, hpv]
  have hallkeys : (fieldNames (piecesOf (parseTokens t.rawTemplate))).all
      (fun n => hasKey (args0 ++ kwargs.filter fun kv => !hasKey args0 kv.1) n)
        = true := by
    rw [fieldNames_piecesOf, List.all_eq_true]
    intro n hn
    obtain ⟨pv, hpv, _⟩ := hlookupArgs n hn
    rw [hasKey_eq_isSome, hpv]
    rfl
  have hrender : renderPieces (args0 ++ kwargs.filter fun kv => !hasKey args0 kv.1)
      (piecesOf (parseTokens t.rawTemplate))
        = .ok (renderToks vals (parseTokens t.rawTemplate)) := by
    apply renderPieces_tokens
    intro n hn
    exact hlookupArgs n (varToken_mem_names.mp hn)
  simp only [formatTemplate, hfind, hargs, hscan, hallkeys, if_true, hrender]

/-- C1 (amended round trip): for a template whose parsed tokens obey the
separation discipline `SepToks` with at least one variable, distinct
referenced names, brace-free literals and uniquely named declared
variables, and a binding set under which every declared variable is
resolvable and valid and every referenced variable resolves to a
nonempty separator-free display string, `format` succeeds and analyzing
its output against a mapping holding the template in any single slot
recovers exactly the resolved display value of every referenced
variable.  The unamended claim is refuted by `c1_counterexample`. -/
theorem c1_round_trip (reM : String → String → Bool) (t : FolderTemplate)
    (sl : MappingSlot) (kwargs : List (String × PyValue))
    (vals : String → String)
    (hsep : SepToks (parseTokens t.rawTemplate))
    (hone : varTokenNames (parseTokens t.rawTemplate) ≠ [])
    (hnodup : (varTokenNames (parseTokens t.rawTemplate)).Nodup)
    (hvnodup : (t.vars.map fun v => v.name).Nodup)
    (hlit : ∀ tk ∈ parseTokens t.rawTemplate,
      (match tk with
       | PathToken.lit s => braceFreeLit s
       | PathToken.var _ => true) = true)
    (hpre : ∀ v ∈ t.vars,
      (v.required && !(hasKey kwargs v.name) && v.defaultValue.isNone) = false)
    (hvalid : ∀ v ∈ t.vars, (lookupAssoc kwargs v.name).all
      (fun val => validateValue reM v val) = true)
    (hres : ∀ n ∈ varTokenNames (parseTokens t.rawTemplate),
      ((t.vars.find? fun w => w.name == n).bind (resolveVar kwargs)).map pyStr
        = some (vals n))
    (hgood : ∀ n ∈ varTokenNames (parseTokens t.rawTemplate),
      (vals n).data ≠ [] ∧ ∀ c ∈ (vals n).data, c ≠ '/') :
    ∃ out : String, formatTemplate reM t kwargs = .ok out ∧
      analyzePath out (singleSlot sl t) =
        .ok (some (slotEntity sl, slotData sl,
          (varTokenNames (parseTokens t.rawTemplate)).map fun n => (n, vals n))) := by
  have hlit' : ∀ s, PathToken.lit s ∈ parseTokens t.rawTemplate →
      braceFreeLit s = true := fun s hs => hlit _ hs
  have hfmt := formatTemplate_render reM t kwargs vals hvnodup hlit' hpre hvalid hres
  refine ⟨_, hfmt, ?_⟩
  have hgood' : ∀ n, PathToken.var n ∈ parseTokens t.rawTemplate →
      (vals n).data ≠ [] ∧ ∀ c ∈ (vals n).data, c ≠ '/' :=
    fun n hn => hgood n (varToken_mem_names.mp hn)
  have hmatch : matchTemplate
      (String.mk (renderToks vals (parseTokens t.rawTemplate))) t.rawTemplate =
      .ok (some (capsOf vals (parseTokens t.rawTemplate))) := by
    show (if (groupNames (templateToRegex t.rawTemplate)).Nodup
      then Except.ok (matchChunks (templateToRegex t.rawTemplate)
        (String.mk (renderToks vals (parseTokens t.rawTemplate))).data)
      else Except.error ()) = _
    rw [show templateToRegex t.rawTemplate =
        (parseTokens t.rawTemplate).map chunkOfToken from rfl, groupNames_map,
      if_pos hnodup]
    exact congrArg Except.ok (matchChunks_render vals _ hsep hgood')
  have hvarex : ∃ n, PathToken.var n ∈ parseTokens t.rawTemplate := by
    match h : varTokenNames (parseTokens t.rawTemplate) with
    | [] => exact absurd h hone
    | n :: rest =>
      exact ⟨n, varToken_mem_names.mpr (by rw [h]; exact List.mem_cons_self _ _)⟩
  obtain ⟨n0, hn0⟩ := hvarex
  have := analyzeLoop_single
    (String.mk (renderToks vals (parseTokens t.rawTemplate))) t sl hmatch
    (capsOf_ne_nil hn0)
  rw [this, capsOf_eq_map]

/-- The concrete template of the C1 witness: one placeholder followed by
a separator-bearing literal, with its referenced variable declared. -/
def c1t : FolderTemplate :=
  .mk "w" "{NAME}/x" "" (parseTokens "{NAME}/x") [{ name := "NAME" }] none .none

/-- Witness for `c1_round_trip` at a concrete template, slot and binding
set, with every hypothesis discharged on the concrete data. -/
theorem c1_witness :
    ∃ out : String,
      formatTemplate (fun _ _ => true) c1t [("NAME", PyValue.str "abc")] = .ok out ∧
      analyzePath out (singleSlot .assetWork c1t) =
        .ok (some (slotEntity .assetWork, slotData .assetWork,
          (varTokenNames (parseTokens c1t.rawTemplate)).map
            fun n => (n, (fun _ => "abc" : String → String) n))) :=
  c1_round_trip (fun _ _ => true) c1t .assetWork [("NAME", PyValue.str "abc")]
    (fun _ => "abc") (SepToks.varLit "NAME" "/x") (by decide) (by decide)
    (by decide) (by decide) (by decide) (by decide) (by decide) (by decide)

/-- C1 counterexample to the literal claim: a valid variable-free
template formats successfully, but analyzing the produced path against
the mapping holding it yields the unresolved result (`none`) instead of
recovering the empty binding set — a successful match with an empty
capture dict fails the `if variables:` truthiness test in
`_analyze_path`. -/
theorem c1_counterexample :
    ∃ t : FolderTemplate,
      mkFolderTemplate "flat" "out" "" [] none .none = .ok t ∧
      validateTemplate t = .ok true ∧
      formatTemplate (fun _ _ => true) t [] = .ok "out" ∧
      analyzePath "out" (singleSlot .assetWork t) = .ok none :=
  ⟨.mk "flat" "out" "" [.lit "out"] [] none .none, rfl, rfl, rfl, rfl⟩

end FolderStruct
